import Mathlib

/-!
Verification of the rockscraper task-distribution and crawl-orchestration core.

The Python classes are embedded shallowly: object mutation becomes explicit
state passing, `datetime.now()` becomes an explicit `now : Int` argument
(times are measured in milliseconds), Python `int` is `Int`, Python `dict`
payloads are association lists, and fallible parsing returns `Option`.
Python `list.sort(key=...)` is stable; it is modelled by the stable insertion
sort `pySort` below.
-/

namespace RS

/-- Python truthiness of an optional string (`None` and the empty string are
falsy, every other string is truthy). -/
def pyStrTruthy : Option String → Bool
  | none => false
  | some s => s ≠ ""

/-- Python truthiness of an optional dict payload: `data or {}` yields the
empty dict when `data` is `None` or empty, otherwise `data` itself. -/
def pyDictOr (d : Option (List (String × String))) : List (String × String) :=
  match d with
  | none => []
  | some m => if m = [] then [] else m

/-- Python truthiness of an optional string list: `xs or default`. -/
def pyListOr (xs : Option (List String)) (dflt : List String) : List String :=
  match xs with
  | none => dflt
  | some l => if l = [] then dflt else l

/-- Python dict assignment `m[k] = v`: overwrite in place if the key exists
(preserving insertion order), else append. -/
def dictSet (m : List (String × String)) (k v : String) : List (String × String) :=
  if m.any (fun p => p.1 = k) then
    m.map (fun p => if p.1 = k then (k, v) else p)
  else
    m ++ [(k, v)]

/-- Stable insertion sort, modelling Python `list.sort(key=...)` (which is
guaranteed stable): an element moves past `y` only when `y` is strictly
smaller, so equal elements keep their original relative order. -/
def pyInsert (le : α → α → Bool) (x : α) : List α → List α
  | [] => [x]
  | y :: ys => if le y x && !(le x y) then y :: pyInsert le x ys else x :: y :: ys

/-- Stable sort of a list under a boolean comparison, see `pyInsert`. -/
def pySort (le : α → α → Bool) : List α → List α
  | [] => []
  | x :: xs => pyInsert le x (pySort le xs)

/-! ## Status enums (models/enums.py) -/
/-- TaskStatus enum. -/
inductive TaskStatus where
  | pending | assigned | in_progress | completed | failed | timeout_
deriving DecidableEq, Repr

/-- The string value of a task status. -/
def TaskStatus.value : TaskStatus → String
  | .pending => "pending"
  | .assigned => "assigned"
  | .in_progress => "in_progress"
  | .completed => "completed"
  | .failed => "failed"
  | .timeout_ => "timeout"

/-- `TaskStatus(s)`: parse a status string, failing on unknown values. -/
def TaskStatus.ofValue : String → Option TaskStatus
  | "pending" => some .pending
  | "assigned" => some .assigned
  | "in_progress" => some .in_progress
  | "completed" => some .completed
  | "failed" => some .failed
  | "timeout" => some .timeout_
  | _ => none

/-- WorkerStatus enum. -/
inductive WorkerStatus where
  | online | busy | offline | error
deriving DecidableEq, Repr

/-- The string value of a worker status. -/
def WorkerStatus.value : WorkerStatus → String
  | .online => "online"
  | .busy => "busy"
  | .offline => "offline"
  | .error => "error"

/-- `WorkerStatus(s)`: parse a status string. -/
def WorkerStatus.ofValue : String → Option WorkerStatus
  | "online" => some .online
  | "busy" => some .busy
  | "offline" => some .offline
  | "error" => some .error
  | _ => none

/-- DistributionStrategy enum. -/
inductive DistributionStrategy where
  | round_robin | least_busy | priority_based | capability_match
deriving DecidableEq, Repr

/-- The string value of a distribution strategy. -/
def DistributionStrategy.value : DistributionStrategy → String
  | .round_robin => "round_robin"
  | .least_busy => "least_busy"
  | .priority_based => "priority_based"
  | .capability_match => "capability_match"

/-- `DistributionStrategy(s)`: parse a strategy string. -/
def DistributionStrategy.ofValue : String → Option DistributionStrategy
  | "round_robin" => some .round_robin
  | "least_busy" => some .least_busy
  | "priority_based" => some .priority_based
  | "capability_match" => some .capability_match
  | _ => none

/-! ## Task (models/task.py) -/
/-- The Task model. Timestamps are milliseconds; `data` is the arbitrary
key-value payload (string keys and values suffice for the core operations:
`required_capability` and `last_error` are string valued). -/
structure Task where
  id : String
  url : String
  priority : Int
  status : TaskStatus
  created_at : Int
  updated_at : Int
  timeout_ms : Int
  data : List (String × String)
  error_count : Int
  max_retries : Int
deriving DecidableEq, Repr

/-- `Task.__init__`: the generated uuid and the clock reading are passed
explicitly. -/
def Task.mkNew (id url : String) (priority timeout_ms : Int)
    (data : Option (List (String × String))) (max_retries : Int) (now : Int) : Task :=
  { id := id
    url := url
    priority := priority
    status := .pending
    created_at := now
    updated_at := now
    timeout_ms := timeout_ms
    data := pyDictOr data
    error_count := 0
    max_retries := max_retries }

/-- `Task.update_status`. -/
def Task.update_status (t : Task) (status : TaskStatus) (now : Int) : Task :=
  { t with status := status, updated_at := now }

/-- `Task.record_error`: increment the error count, store the last error,
and force FAILED when the retry budget is exhausted. -/
def Task.record_error (t : Task) (error : String) (now : Int) : Task :=
  let t1 := { t with error_count := t.error_count + 1,
                     data := dictSet t.data "last_error" error }
  if t1.error_count ≥ t1.max_retries then
    t1.update_status .failed now
  else
    t1

/-- `Task.is_timed_out`. -/
def Task.is_timed_out (t : Task) (now : Int) : Bool :=
  t.status = TaskStatus.in_progress && (now - t.updated_at) > t.timeout_ms

/-- `Task.reset`. -/
def Task.reset (t : Task) (now : Int) : Task :=
  t.update_status .pending now

/-! ## Worker (models/worker.py) -/
/-- The Worker model. `current_load` is a Python int (`Int` here: the code
manipulates it by unguarded increment and decrement). -/
structure Worker where
  id : String
  name : String
  status : WorkerStatus
  capabilities : List String
  current_load : Int
  max_load : Int
  ip_address : String
  last_heartbeat : Int
  current_tasks : List String
deriving DecidableEq, Repr

/-- `Worker.__init__`. -/
def Worker.mkNew (id name ip_address : String) (capabilities : Option (List String))
    (max_load : Int) (now : Int) : Worker :=
  { id := id
    name := name
    status := .online
    capabilities := pyListOr capabilities ["basic-scraping"]
    current_load := 0
    max_load := max_load
    ip_address := ip_address
    last_heartbeat := now
    current_tasks := [] }

/-- `Worker.update_heartbeat`. -/
def Worker.update_heartbeat (w : Worker) (now : Int) : Worker :=
  { w with last_heartbeat := now }

/-- `Worker.update_status`: set the status and refresh the heartbeat. -/
def Worker.update_status (w : Worker) (status : WorkerStatus) (now : Int) : Worker :=
  Worker.update_heartbeat { w with status := status } now

/-- `Worker.assign_task`: returns the boolean result together with the
updated worker. -/
def Worker.assign_task (w : Worker) (task_id : String) (now : Int) : Bool × Worker :=
  if w.current_load ≥ w.max_load then
    (false, w)
  else
    let w1 := { w with current_tasks := w.current_tasks ++ [task_id],
                       current_load := w.current_load + 1 }
    let w2 := if w1.current_load ≥ w1.max_load then w1.update_status .busy now else w1
    (true, w2)

/-- `Worker.complete_task`: `list.remove` drops the first occurrence. -/
def Worker.complete_task (w : Worker) (task_id : String) (now : Int) : Bool × Worker :=
  if task_id ∈ w.current_tasks then
    let w1 := { w with current_tasks := w.current_tasks.erase task_id,
                       current_load := w.current_load - 1 }
    let w2 := if w1.status = WorkerStatus.busy && w1.current_load < w1.max_load then
                w1.update_status .online now
              else w1
    (true, w2)
  else
    (false, w)

/-- `Worker.has_capability`. -/
def Worker.has_capability (w : Worker) (capability : String) : Bool :=
  capability ∈ w.capabilities

/-- `Worker.is_available`. -/
def Worker.is_available (w : Worker) : Bool :=
  (w.status = WorkerStatus.online || w.status = WorkerStatus.busy) &&
    w.current_load < w.max_load

/-- `Worker.is_heartbeat_expired`: elapsed milliseconds strictly above the
timeout. -/
def Worker.is_heartbeat_expired (w : Worker) (timeout_ms : Int) (now : Int) : Bool :=
  (now - w.last_heartbeat) > timeout_ms

/-! ## Claim C3: record_error retry exhaustion -/
/-- Run a sequence of `record_error` calls, each with its own error message
and clock reading. -/
def Task.record_errors (t : Task) : List (String × Int) → Task
  | [] => t
  | p :: rest => (t.record_error p.1 p.2).record_errors rest

/-! ## TaskResult (models/task_result.py) -/
/-- The TaskResult model. `data` keeps its optionality (`self.data = data`
with no defaulting). -/
structure TaskResult where
  task_id : String
  worker_id : String
  success : Bool
  execution_time_ms : Int
  data : Option (List (String × String))
  error : Option String
  completed_at : Int
deriving DecidableEq, Repr

/-! ## Dictionaries produced by to_dict / consumed by from_dict.

`datetime.isoformat` and `datetime.fromisoformat` are mutually inverse, so
timestamp serialization is modelled by the timestamp itself; enum values are
serialized to their strings. -/
/-- The dictionary produced by `Task.to_dict`. -/
structure TaskDict where
  id : String
  url : String
  priority : Int
  status : String
  created_at : Int
  updated_at : Int
  timeout_ms : Int
  data : List (String × String)
  error_count : Int
  max_retries : Int
deriving DecidableEq, Repr

/-- `Task.to_dict`. -/
def Task.to_dict (t : Task) : TaskDict :=
  { id := t.id, url := t.url, priority := t.priority, status := t.status.value,
    created_at := t.created_at, updated_at := t.updated_at,
    timeout_ms := t.timeout_ms, data := t.data, error_count := t.error_count,
    max_retries := t.max_retries }

/-- `Task.from_dict`: the constructor call applies `data or` defaulting; the
status string is parsed by the `TaskStatus` enum (raising, hence `Option`,
on unknown values); every other field is overwritten from the dictionary. -/
def Task.from_dict (d : TaskDict) : Option Task :=
  match TaskStatus.ofValue d.status with
  | none => none
  | some st =>
    some { id := d.id, url := d.url, priority := d.priority, status := st,
           created_at := d.created_at, updated_at := d.updated_at,
           timeout_ms := d.timeout_ms, data := pyDictOr (some d.data),
           error_count := d.error_count, max_retries := d.max_retries }

/-- The dictionary produced by `Worker.to_dict`. -/
structure WorkerDict where
  id : String
  name : String
  status : String
  capabilities : List String
  current_load : Int
  max_load : Int
  ip_address : String
  last_heartbeat : Int
  current_tasks : List String
deriving DecidableEq, Repr

/-- `Worker.to_dict`. -/
def Worker.to_dict (w : Worker) : WorkerDict :=
  { id := w.id, name := w.name, status := w.status.value,
    capabilities := w.capabilities, current_load := w.current_load,
    max_load := w.max_load, ip_address := w.ip_address,
    last_heartbeat := w.last_heartbeat, current_tasks := w.current_tasks }

/-- `Worker.from_dict`: the constructor call applies the
`capabilities or ["basic-scraping"]` defaulting; the status string is parsed
by the `WorkerStatus` enum. -/
def Worker.from_dict (d : WorkerDict) : Option Worker :=
  match WorkerStatus.ofValue d.status with
  | none => none
  | some st =>
    some { id := d.id, name := d.name, status := st,
           capabilities := pyListOr (some d.capabilities) ["basic-scraping"],
           current_load := d.current_load, max_load := d.max_load,
           ip_address := d.ip_address, last_heartbeat := d.last_heartbeat,
           current_tasks := d.current_tasks }

/-- The dictionary produced by `TaskResult.to_dict`. -/
structure TaskResultDict where
  task_id : String
  worker_id : String
  success : Bool
  data : Option (List (String × String))
  error : Option String
  execution_time_ms : Int
  completed_at : Int
deriving DecidableEq, Repr

/-- `TaskResult.to_dict`. -/
def TaskResult.to_dict (r : TaskResult) : TaskResultDict :=
  { task_id := r.task_id, worker_id := r.worker_id, success := r.success,
    data := r.data, error := r.error,
    execution_time_ms := r.execution_time_ms, completed_at := r.completed_at }

/-- `TaskResult.from_dict` (total: no enum parsing; `.get` lookups are
modelled by the optional fields). -/
def TaskResult.from_dict (d : TaskResultDict) : TaskResult :=
  { task_id := d.task_id, worker_id := d.worker_id, success := d.success,
    execution_time_ms := d.execution_time_ms, data := d.data,
    error := d.error, completed_at := d.completed_at }

/-! ## TaskDistributor registries (services/task_distributor.py) -/
/-- Python dict assignment `m[k] = v` on a registry: overwrite in place when
the key exists (order preserved), else append. -/
def regSet (m : List (String × α)) (k : String) (v : α) : List (String × α) :=
  if m.any (fun p => p.1 = k) then
    m.map (fun p => if p.1 = k then (k, v) else p)
  else
    m ++ [(k, v)]

/-- The TaskDistributor: the two id-keyed registries (insertion-ordered, as
Python dicts are) and the current strategy. -/
structure TaskDistributor where
  tasks : List (String × Task)
  workers : List (String × Worker)
  strategy : DistributionStrategy
deriving DecidableEq, Repr

/-- `TaskDistributor.add_task`. -/
def TaskDistributor.add_task (d : TaskDistributor) (t : Task) : TaskDistributor :=
  { d with tasks := regSet d.tasks t.id t }

/-- `TaskDistributor.add_worker`. -/
def TaskDistributor.add_worker (d : TaskDistributor) (w : Worker) : TaskDistributor :=
  { d with workers := regSet d.workers w.id w }

/-- `TaskDistributor.remove_task`. -/
def TaskDistributor.remove_task (d : TaskDistributor) (task_id : String) :
    Bool × TaskDistributor :=
  if d.tasks.any (fun p => p.1 = task_id) then
    (true, { d with tasks := d.tasks.filter (fun p => ¬ p.1 = task_id) })
  else
    (false, d)

/-- `TaskDistributor.remove_worker`. -/
def TaskDistributor.remove_worker (d : TaskDistributor) (worker_id : String) :
    Bool × TaskDistributor :=
  if d.workers.any (fun p => p.1 = worker_id) then
    (true, { d with workers := d.workers.filter (fun p => ¬ p.1 = worker_id) })
  else
    (false, d)

/-- `TaskDistributor.get_task`. -/
def TaskDistributor.get_task (d : TaskDistributor) (task_id : String) : Option Task :=
  d.tasks.lookup task_id

/-- `TaskDistributor.get_worker`. -/
def TaskDistributor.get_worker (d : TaskDistributor) (worker_id : String) : Option Worker :=
  d.workers.lookup worker_id

/-- `TaskDistributor.get_all_tasks`: the registry values in insertion order. -/
def TaskDistributor.get_all_tasks (d : TaskDistributor) : List Task :=
  d.tasks.map (fun p => p.2)

/-- `TaskDistributor.get_pending_tasks`. -/
def TaskDistributor.get_pending_tasks (d : TaskDistributor) : List Task :=
  d.get_all_tasks.filter (fun t => t.status = TaskStatus.pending)

/-- `TaskDistributor.get_all_workers`. -/
def TaskDistributor.get_all_workers (d : TaskDistributor) : List Worker :=
  d.workers.map (fun p => p.2)

/-- `TaskDistributor.get_available_workers`. -/
def TaskDistributor.get_available_workers (d : TaskDistributor) : List Worker :=
  d.get_all_workers.filter (fun w => w.is_available)

/-- `TaskDistributor.set_strategy`. -/
def TaskDistributor.set_strategy (d : TaskDistributor) (s : DistributionStrategy) :
    TaskDistributor :=
  { d with strategy := s }

/-! ## Distribution strategies (services/task_distributor.py)

The Python passes mutate shared Task and Worker objects while walking local
snapshot lists. The functional rendering threads the lists explicitly:
each pass returns the number of assignments, the final values of the tasks
of the snapshot (in the order the pass leaves them), the workers still in
the local rotation list, the workers removed from it mid-pass (whose
mutations are equally visible through the registry), and a ghost trace of
the successful assignments (task and worker value at assignment time plus
the eligible worker list used to choose). -/
/-- One successful assignment: the task and worker values at assignment
time, and the worker list the choice was made from at that step. -/
structure AssignEvent where
  task : Task
  worker : Worker
  eligible : List Worker
deriving DecidableEq, Repr

/-- The outcome of one distribution pass over the pending/available
snapshots. -/
structure PassResult where
  assigned : Int
  tasks : List Task
  workers : List Worker
  retired : List Worker
  events : List AssignEvent
deriving DecidableEq, Repr

/-- The sort comparison `key=lambda w: w.current_load`. -/
def leLoad (a b : Worker) : Bool := a.current_load ≤ b.current_load

/-- The sort comparison `key=lambda t: t.priority, reverse=True` (Python
keeps stability under `reverse=True`). -/
def lePriorityDesc (a b : Task) : Bool := b.priority ≤ a.priority

/-- Replace the first occurrence of a value in a list (the functional image
of mutating the picked object in place). -/
def replaceFirst [DecidableEq α] : List α → α → α → List α
  | [], _, _ => []
  | x :: xs, old, new => if x = old then new :: xs else x :: replaceFirst xs old new

/-- `task.data.get('required_capability')`. -/
def requiredCapability (t : Task) : Option String :=
  t.data.lookup "required_capability"

/-- `not required_capability or w.has_capability(required_capability)`. -/
def capFilterPred (rc : Option String) (w : Worker) : Bool :=
  !(pyStrTruthy rc) || w.has_capability (rc.getD "")

/-- The loop of `_distribute_least_busy` (already-sorted worker list in,
re-sorted or popped after each assignment). `_distribute_priority_based`
shares this loop verbatim. -/
def distributeLeastBusyGo (now : Int) : List Task → List Worker → PassResult
  | [], ws => { assigned := 0, tasks := [], workers := ws, retired := [], events := [] }
  | t :: ts, ws =>
    match ws with
    | [] =>
      { assigned := 0, tasks := t :: ts, workers := [], retired := [], events := [] }
    | w :: wrest =>
      let p := w.assign_task t.id now
      let t2 := if p.1 then t.update_status .assigned now else t
      if !(p.2.is_available) then
        let r := distributeLeastBusyGo now ts wrest
        { assigned := (if p.1 then 1 else 0) + r.assigned,
          tasks := t2 :: r.tasks, workers := r.workers,
          retired := p.2 :: r.retired,
          events := (if p.1 then [⟨t, w, ws⟩] else []) ++ r.events }
      else
        let r := distributeLeastBusyGo now ts (pySort leLoad (p.2 :: wrest))
        { assigned := (if p.1 then 1 else 0) + r.assigned,
          tasks := t2 :: r.tasks, workers := r.workers,
          retired := r.retired,
          events := (if p.1 then [⟨t, w, ws⟩] else []) ++ r.events }

/-- `TaskDistributor._distribute_least_busy`. -/
def distributeLeastBusy (now : Int) (tasks : List Task) (workers : List Worker) :
    PassResult :=
  distributeLeastBusyGo now tasks (pySort leLoad workers)

/-- `TaskDistributor._distribute_priority_based`: sort tasks by descending
priority, then run the least-busy loop. -/
def distributePriorityBased (now : Int) (tasks : List Task) (workers : List Worker) :
    PassResult :=
  distributeLeastBusyGo now (pySort lePriorityDesc tasks) (pySort leLoad workers)

/-- The loop of `_distribute_round_robin`: `idx` is `worker_index`; the
index is advanced modulo the current rotation length before an unavailable
worker is removed, then re-reduced modulo the shrunken length. -/
def distributeRoundRobinGo (now : Int) : List Task → List Worker → Nat → PassResult
  | [], ws, _ => { assigned := 0, tasks := [], workers := ws, retired := [], events := [] }
  | t :: ts, ws, idx =>
    match ws with
    | [] =>
      { assigned := 0, tasks := t :: ts, workers := [], retired := [], events := [] }
    | _ :: _ =>
      match ws[idx]? with
      | none =>
        -- index out of range cannot happen for the maintained index
        { assigned := 0, tasks := t :: ts, workers := ws, retired := [], events := [] }
      | some w =>
        let p := w.assign_task t.id now
        let t2 := if p.1 then t.update_status .assigned now else t
        let ws2 := ws.set idx p.2
        let idx2 := (idx + 1) % ws2.length
        if !(p.2.is_available) then
          let ws3 := ws2.erase p.2
          let idx3 := if ws3.length > 0 then idx2 % ws3.length else idx2
          let r := distributeRoundRobinGo now ts ws3 idx3
          { assigned := (if p.1 then 1 else 0) + r.assigned,
            tasks := t2 :: r.tasks, workers := r.workers,
            retired := p.2 :: r.retired,
            events := (if p.1 then [⟨t, w, ws⟩] else []) ++ r.events }
        else
          let r := distributeRoundRobinGo now ts ws2 idx2
          { assigned := (if p.1 then 1 else 0) + r.assigned,
            tasks := t2 :: r.tasks, workers := r.workers,
            retired := r.retired,
            events := (if p.1 then [⟨t, w, ws⟩] else []) ++ r.events }

/-- `TaskDistributor._distribute_round_robin`. -/
def distributeRoundRobin (now : Int) (tasks : List Task) (workers : List Worker) :
    PassResult :=
  distributeRoundRobinGo now tasks workers 0

/-- `TaskDistributor._distribute_capability_match`: filter to capable
workers, choose the least loaded (stably sorted copy), assign, and remove
the worker from the rotation when it became unavailable. An empty sorted
capable list means an empty capable list (`continue`: the task is skipped
untouched). -/
def distributeCapabilityMatchGo (now : Int) : List Task → List Worker → PassResult
  | [], ws => { assigned := 0, tasks := [], workers := ws, retired := [], events := [] }
  | t :: ts, ws =>
    match ws with
    | [] =>
      { assigned := 0, tasks := t :: ts, workers := [], retired := [], events := [] }
    | _ :: _ =>
      let rc := requiredCapability t
      match pySort leLoad (ws.filter (capFilterPred rc)) with
      | [] =>
        let r := distributeCapabilityMatchGo now ts ws
        { r with tasks := t :: r.tasks }
      | w :: _ =>
        let p := w.assign_task t.id now
        let t2 := if p.1 then t.update_status .assigned now else t
        let ws2 := replaceFirst ws w p.2
        let removing := !(p.2.is_available) && ws2.contains p.2
        let ws3 := if removing then ws2.erase p.2 else ws2
        let r := distributeCapabilityMatchGo now ts ws3
        { assigned := (if p.1 then 1 else 0) + r.assigned,
          tasks := t2 :: r.tasks, workers := r.workers,
          retired := (if removing then [p.2] else []) ++ r.retired,
          events := (if p.1 then [⟨t, w, ws.filter (capFilterPred rc)⟩] else []) ++ r.events }

/-- Strategy dispatch inside `TaskDistributor.distribute` (the `else`
fallback to least-busy is dead: the enum has exactly these four values). -/
def runStrategy (strategy : DistributionStrategy) (now : Int)
    (tasks : List Task) (workers : List Worker) : PassResult :=
  match strategy with
  | .round_robin => distributeRoundRobin now tasks workers
  | .least_busy => distributeLeastBusy now tasks workers
  | .priority_based => distributePriorityBased now tasks workers
  | .capability_match => distributeCapabilityMatchGo now tasks workers

/-- `TaskDistributor.distribute`: snapshot the pending tasks and available
workers, run the strategy, and write the mutated objects back through the
registries. Mutation is written back by record id, which coincides with
reference mutation because registry keys are the record ids and unique
(the invariant every reachable registry satisfies; theorems that rely on
it take it as a hypothesis). -/
def TaskDistributor.distribute (d : TaskDistributor) (now : Int) :
    Int × TaskDistributor × List AssignEvent :=
  let pending := d.get_pending_tasks
  if pending = [] then (0, d, [])
  else
    let avail := d.get_available_workers
    if avail = [] then (0, d, [])
    else
      let res := runStrategy d.strategy now pending avail
      let finalWs := res.retired ++ res.workers
      (res.assigned,
       { d with
         tasks := d.tasks.map (fun p =>
           match res.tasks.find? (fun u => u.id = p.1) with
           | some u => (p.1, u)
           | none => p),
         workers := d.workers.map (fun p =>
           match finalWs.find? (fun u => u.id = p.1) with
           | some u => (p.1, u)
           | none => p) },
       res.events)

/-! ## Process state and save_state / load_state (process.py) -/
/-- The persistent part of a Process: the owned distributor, the two timing
settings and the result store (keyed by task id). The monitoring thread,
the running flag and the hook registries are not part of the persisted
state. -/
structure ProcState where
  distributor : TaskDistributor
  heartbeat_timeout_ms : Int
  task_check_interval_sec : Int
  task_results : List (String × TaskResult)
deriving DecidableEq, Repr

/-- `Process.__init__`: a fresh instance. -/
def ProcState.mkNew (strategy : DistributionStrategy)
    (heartbeat_timeout_ms task_check_interval_sec : Int) : ProcState :=
  { distributor := { tasks := [], workers := [], strategy := strategy }
    heartbeat_timeout_ms := heartbeat_timeout_ms
    task_check_interval_sec := task_check_interval_sec
    task_results := [] }

/-- The JSON state document written by `save_state`. -/
structure StateDoc where
  tasks : List TaskDict
  workers : List WorkerDict
  results : List TaskResultDict
  distribution_strategy : String
  heartbeat_timeout_ms : Int
  task_check_interval_sec : Int
deriving DecidableEq, Repr

/-- `Process.save_state` (the file write aside: the document content). -/
def ProcState.save_state (s : ProcState) : StateDoc :=
  { tasks := s.distributor.get_all_tasks.map Task.to_dict
    workers := s.distributor.get_all_workers.map Worker.to_dict
    results := (s.task_results.map (fun p => p.2)).map TaskResult.to_dict
    distribution_strategy := s.distributor.strategy.value
    heartbeat_timeout_ms := s.heartbeat_timeout_ms
    task_check_interval_sec := s.task_check_interval_sec }

/-- The task-loading loop of `load_state`. -/
def loadTasks : List TaskDict → TaskDistributor → Option TaskDistributor
  | [], d => some d
  | td :: rest, d =>
    match Task.from_dict td with
    | none => none
    | some t => loadTasks rest (d.add_task t)

/-- The worker-loading loop of `load_state`. -/
def loadWorkers : List WorkerDict → TaskDistributor → Option TaskDistributor
  | [], d => some d
  | wd :: rest, d =>
    match Worker.from_dict wd with
    | none => none
    | some w => loadWorkers rest (d.add_worker w)

/-- The result-loading loop of `load_state`
(`self.task_results[result.task_id] = result`). -/
def loadResults : List TaskResultDict → List (String × TaskResult) →
    List (String × TaskResult)
  | [], m => m
  | rd :: rest, m =>
    let r := TaskResult.from_dict rd
    loadResults rest (regSet m r.task_id r)

/-- `Process.load_state`: clear the registries and the result store, then
re-populate everything from the document. Parsing failures (unknown enum
strings) raise, hence `Option`. -/
def ProcState.load_state (s : ProcState) (doc : StateDoc) : Option ProcState :=
  let d0 : TaskDistributor :=
    { tasks := [], workers := [], strategy := s.distributor.strategy }
  match loadTasks doc.tasks d0 with
  | none => none
  | some d1 =>
    match loadWorkers doc.workers d1 with
    | none => none
    | some d2 =>
      let results := loadResults doc.results []
      match DistributionStrategy.ofValue doc.distribution_strategy with
      | none => none
      | some strat =>
        some { distributor := d2.set_strategy strat
               heartbeat_timeout_ms := doc.heartbeat_timeout_ms
               task_check_interval_sec := doc.task_check_interval_sec
               task_results := results }

/-! ## CrawlManager (services/crawl_manager.py)

`crawl_with_depth` drives a FIFO queue over the collaborator call `crawl`.
The collaborator behaviour for each iteration is an oracle indexed by the
call counter: the scrape inside `crawl` may raise (caught there: `crawl`
returns a failure dict and none of the post-scrape session bookkeeping
runs), the loop body itself may raise (reaching the outer `except` branch),
or the scrape returns a success flag with the raw page links (each link
modelled by its optional `target_url`). Session ids are modelled by an
opaque counter standing for the non-empty string tokens the API returns;
ghost lists record every started and every ended session id. Task-result
bookkeeping and persistence inside `crawl` have no bearing on the crawl
loop and are omitted. -/
/-- Collaborator behaviour of one iteration, see the section comment. -/
inductive CrawlCall where
  | bodyRaises
  | scrapeRaises
  | returns (success : Bool) (links : List (Option String))
deriving DecidableEq, Repr

/-- CrawlManager configuration relevant to the crawl loop. -/
structure CMConfig where
  max_urls_per_session : Nat
  follow_links : Bool
  same_domain_only : Bool
deriving DecidableEq, Repr

/-- CrawlManager state during a depth crawl, plus the ghost session logs
and the oracle call counter. -/
structure CMState where
  queue : List (String × Nat)
  crawled : List String
  successful : List String
  failed : List String
  visited : List String
  active_session_id : Option Nat
  urls_in_session : Nat
  nextId : Nat
  started : List Nat
  ended : List Nat
  callIdx : Nat
deriving DecidableEq, Repr

/-- `set.add` on the list model of a Python set. -/
def setAdd (s : List String) (x : String) : List String :=
  if x ∈ s then s else x :: s

/-- `scraper.start_session`: hand out the next session id and log it. -/
def startSession (st : CMState) : CMState :=
  { st with active_session_id := some st.nextId,
            started := st.started ++ [st.nextId],
            nextId := st.nextId + 1 }

/-- The `if self.active_session_id: end_session(...); clear` sequence used
on both exit paths of `crawl_with_depth`. -/
def closeSession (st : CMState) : CMState :=
  match st.active_session_id with
  | some sid => { st with ended := st.ended ++ [sid], active_session_id := none }
  | none => st

/-- `CrawlManager._rotate_session`. -/
def rotateSession (st : CMState) : CMState :=
  match st.active_session_id with
  | some sid =>
    let st1 := startSession { st with ended := st.ended ++ [sid] }
    { st1 with urls_in_session := 0 }
  | none => st

/-- The characters following the first `//`, when any. -/
def afterDoubleSlash : List Char → Option (List Char)
  | [] => none
  | c :: rest =>
    if c = '/' then
      match rest with
      | c2 :: rest2 => if c2 = '/' then some rest2 else afterDoubleSlash rest
      | [] => none
    else afterDoubleSlash rest

/-- The authority part: everything up to the next `/`, `?` or `#`. -/
def takeNetloc : List Char → List Char
  | [] => []
  | c :: rest => if c = '/' ∨ c = '?' ∨ c = '#' then [] else c :: takeNetloc rest

/-- `urlparse(url).netloc`, modelled: the text following the first `//` up
to the next `/`, `?` or `#`; empty when the url has no authority part. -/
def getDomain (url : String) : String :=
  match afterDoubleSlash url.toList with
  | none => ""
  | some cs => String.mk (takeNetloc cs)

/-- `CrawlManager._filter_links_to_follow`: drop links without a truthy
target url, links already visited, and foreign-domain links in
same-domain-only mode. -/
def filterLinksToFollow (cfg : CMConfig) (visited : List String)
    (links : List (Option String)) (base_url : String) : List String :=
  links.filterMap (fun l =>
    match l with
    | none => none
    | some u =>
      if u = "" then none
      else if u ∈ visited then none
      else if cfg.same_domain_only && !(getDomain u = getDomain base_url) then none
      else some u)

/-- What `crawl` hands the depth loop: either the body raised (propagating
to the loop's `except`) or a result dict, projected to its success flag and
its `links_to_follow` (defaulted to empty when absent). -/
inductive CrawlRes where
  | raised
  | res (success : Bool) (links_to_follow : List String)
deriving DecidableEq, Repr

/-- `CrawlManager.crawl`, restricted to its session bookkeeping and link
computation: ensure a session exists, scrape, count the url into the
session and the visited set, rotate once the per-session quota is reached
(after processing the url), and attach the filtered links on success. -/
def crawlStep (cfg : CMConfig) (f : Nat → CrawlCall) (st : CMState) (url : String) :
    CrawlRes × CMState :=
  let st1 := match st.active_session_id with
    | none => { (startSession st) with urls_in_session := 0 }
    | some _ => st
  let call := f st1.callIdx
  let st2 := { st1 with callIdx := st1.callIdx + 1 }
  match call with
  | .bodyRaises => (.raised, st2)
  | .scrapeRaises => (.res false [], st2)
  | .returns succ links =>
    let st3 := { st2 with urls_in_session := st2.urls_in_session + 1,
                          visited := setAdd st2.visited url }
    let st4 := if st3.urls_in_session ≥ cfg.max_urls_per_session then
                 rotateSession st3
               else st3
    let ltf := if cfg.follow_links && succ then
                 filterLinksToFollow cfg st4.visited links url
               else []
    (.res succ ltf, st4)

/-- The `while crawl_queue:` loop of `crawl_with_depth`, with explicit fuel
(`none` = fuel exhausted). The result carries the success flag of the
returned statistics dict: `true` for the normal exit when the queue
empties, `false` for the exceptional exit; both close the session. -/
def depthLoop (cfg : CMConfig) (f : Nat → CrawlCall) (max_depth : Nat) :
    Nat → CMState → Option (Bool × CMState)
  | 0, _ => none
  | fuel + 1, st =>
    match st.queue with
    | [] => some (true, closeSession st)
    | (url, depth) :: rest =>
      let st1 := { st with queue := rest }
      if url ∈ st1.crawled then
        depthLoop cfg f max_depth fuel st1
      else
        match crawlStep cfg f st1 url with
        | (.raised, st2) => some (false, closeSession st2)
        | (.res succ ltf, st2) =>
          let st3 := { st2 with crawled := setAdd st2.crawled url }
          if succ then
            let st4 := { st3 with successful := setAdd st3.successful url }
            let newEntries :=
              if depth < max_depth then
                ltf.filterMap (fun link_url =>
                  if !(link_url = "") && !(link_url ∈ st4.crawled) then
                    some (link_url, depth + 1)
                  else none)
              else []
            depthLoop cfg f max_depth fuel { st4 with queue := st4.queue ++ newEntries }
          else
            depthLoop cfg f max_depth fuel { st3 with failed := setAdd st3.failed url }

/-- `CrawlManager.crawl_with_depth`: seed the FIFO queue with
`(start_url, 0)`, start a fresh session (unconditionally overwriting any
previously active id) and reset the per-session counter, then drive the
loop. The ghost logs observe only this run. -/
def crawl_with_depth (cfg : CMConfig) (f : Nat → CrawlCall) (max_depth : Nat)
    (fuel : Nat) (start_url : String) (visited0 : List String) (urls0 : Nat)
    (session0 : Option Nat) (nextId0 : Nat) : Option (Bool × CMState) :=
  let st0 : CMState :=
    { queue := [(start_url, 0)], crawled := [], successful := [], failed := [],
      visited := visited0, active_session_id := session0,
      urls_in_session := urls0, nextId := nextId0, started := [], ended := [],
      callIdx := 0 }
  depthLoop cfg f max_depth fuel { (startSession st0) with urls_in_session := 0 }

/-! ## Claim C5: heartbeat monitor tick (process.py, _check_worker_heartbeats) -/
/-- Whether `Process._trigger_worker_hooks` actually runs the hook list for
the new status: it fires only when the status really changed. -/
def triggerWorkerHooksFires (w : Worker) (old_status : WorkerStatus) : Bool :=
  w.status ≠ old_status

/-- One monitor-tick heartbeat check for a single worker (the loop body of
`Process._check_worker_heartbeats`): returns the updated worker together
with whether the OFFLINE worker-hook set fired for it. -/
def checkWorkerHeartbeat (heartbeat_timeout_ms : Int) (now : Int) (w : Worker) :
    Worker × Bool :=
  if w.is_heartbeat_expired heartbeat_timeout_ms now &&
      !(w.status = WorkerStatus.offline) then
    let w2 := w.update_status .offline now
    (w2, triggerWorkerHooksFires w2 w.status)
  else
    (w, false)

/-- Run a sequence of monitor ticks (at the given clock readings) over one
worker, counting how many times the OFFLINE hooks fired. -/
def runHeartbeatTicks (tmo : Int) : List Int → Worker → Worker × Nat
  | [], w => (w, 0)
  | n :: ns, w =>
    let p := checkWorkerHeartbeat tmo n w
    let q := runHeartbeatTicks tmo ns p.1
    (q.1, (if p.2 then 1 else 0) + q.2)

/-! ## Claim C7: the crawl session is closed exactly once on both exits -/
/-- The session-log invariant maintained throughout a depth crawl: the
started sessions are exactly the ended sessions followed by the currently
active one (if any). -/
def SessionInv (st : CMState) : Prop :=
  st.started = st.ended ++ st.active_session_id.toList

theorem pyInsert_perm (le : α → α → Bool) (x : α) (l : List α) :
    (pyInsert le x l).Perm (x :: l) := by
  induction l with
  | nil => simp [pyInsert]
  | cons y ys ih =>
    simp only [pyInsert]
    split
    · exact ((ih.cons y).trans (List.Perm.swap x y ys))
    · exact List.Perm.refl _

theorem pySort_perm (le : α → α → Bool) (l : List α) : (pySort le l).Perm l := by
  induction l with
  | nil => exact List.Perm.refl _
  | cons x xs ih => exact (pyInsert_perm le x (pySort le xs)).trans (ih.cons x)

/-- Every element of `pyInsert le x l` is `x` or from `l`. -/
theorem mem_pyInsert (le : α → α → Bool) (x : α) (l : List α) (y : α) :
    y ∈ pyInsert le x l ↔ y = x ∨ y ∈ l := by
  have h := (pyInsert_perm le x l).mem_iff (a := y)
  simpa using h

theorem mem_pySort (le : α → α → Bool) (l : List α) (y : α) :
    y ∈ pySort le l ↔ y ∈ l := (pySort_perm le l).mem_iff

/-- Inserting into a list that is pairwise ordered under a total transitive
comparison keeps it pairwise ordered. -/
theorem pyInsert_pairwise (le : α → α → Bool)
    (htot : ∀ a b, (le a b || le b a) = true)
    (htrans : ∀ a b c, le a b = true → le b c = true → le a c = true)
    (x : α) (l : List α)
    (hl : l.Pairwise (fun a b => le a b = true)) :
    (pyInsert le x l).Pairwise (fun a b => le a b = true) := by
  induction l with
  | nil => simp [pyInsert]
  | cons y ys ih =>
    rcases List.pairwise_cons.mp hl with ⟨hy, hys⟩
    by_cases hmov : (le y x && !(le x y)) = true
    · have hres : pyInsert le x (y :: ys) = y :: pyInsert le x ys := by
        simp only [pyInsert, if_pos hmov]
      rw [hres]
      refine List.pairwise_cons.mpr ⟨?_, ih hys⟩
      intro z hz
      rcases (mem_pyInsert le x ys z).mp hz with rfl | hzys
      · have hmov2 := hmov
        rw [Bool.and_eq_true] at hmov2
        exact hmov2.1
      · exact hy z hzys
    · have hres : pyInsert le x (y :: ys) = x :: y :: ys := by
        simp only [pyInsert, if_neg hmov]
      rw [hres]
      have hxy : le x y = true := by
        cases h2 : le x y with
        | true => rfl
        | false =>
          cases h4 : le y x with
          | true => exact absurd (by rw [h4, h2]; rfl) hmov
          | false =>
            have h5 := htot x y
            rw [h2, h4] at h5
            simp at h5
      refine List.pairwise_cons.mpr ⟨?_, hl⟩
      intro z hz
      rcases List.mem_cons.mp hz with rfl | hzys
      · exact hxy
      · exact htrans x y z hxy (hy z hzys)

/-- The stable sort is pairwise ordered under a total transitive comparison. -/
theorem pySort_pairwise (le : α → α → Bool)
    (htot : ∀ a b, (le a b || le b a) = true)
    (htrans : ∀ a b c, le a b = true → le b c = true → le a c = true)
    (l : List α) :
    (pySort le l).Pairwise (fun a b => le a b = true) := by
  induction l with
  | nil => simp [pySort]
  | cons x xs ih => exact pyInsert_pairwise le htot htrans x _ ih

/-- The head of the stable sort is a lower bound of the original list. -/
theorem pySort_head_min (le : α → α → Bool)
    (htot : ∀ a b, (le a b || le b a) = true)
    (htrans : ∀ a b c, le a b = true → le b c = true → le a c = true)
    (l : List α) (x : α) (t : List α)
    (h : pySort le l = x :: t) : ∀ y ∈ l, le x y = true := by
  intro y hy
  have hmem : y ∈ pySort le l := (mem_pySort le l y).mpr hy
  rw [h] at hmem
  rcases List.mem_cons.mp hmem with rfl | hyt
  · have h2 := htot y y
    rw [Bool.or_eq_true] at h2
    rcases h2 with h | h <;> exact h
  · have hp := pySort_pairwise le htot htrans l
    rw [h] at hp
    exact (List.pairwise_cons.mp hp).1 y hyt

/-! ## Claim C2: worker load invariant -/
/-- Claim C2: for every worker, if current_load equals the length of
current_tasks and current_load is at most max_load before a call to
assign_task or complete_task with any task-id argument, then both
properties hold again after the call returns. -/
theorem claim_C2 (w : Worker) (task_id : String) (now : Int)
    (hlen : w.current_load = (w.current_tasks.length : Int))
    (hmax : w.current_load ≤ w.max_load) :
    ((w.assign_task task_id now).2.current_load =
        ((w.assign_task task_id now).2.current_tasks.length : Int) ∧
      (w.assign_task task_id now).2.current_load ≤ (w.assign_task task_id now).2.max_load) ∧
    ((w.complete_task task_id now).2.current_load =
        ((w.complete_task task_id now).2.current_tasks.length : Int) ∧
      (w.complete_task task_id now).2.current_load ≤ (w.complete_task task_id now).2.max_load) := by
  constructor
  · unfold Worker.assign_task
    dsimp only
    split
    · exact ⟨hlen, hmax⟩
    · rename_i hge
      split
      · rename_i hfull
        refine ⟨?_, ?_⟩
        · simp only [Worker.update_status, Worker.update_heartbeat,
            List.length_append, List.length_cons, List.length_nil]
          omega
        · simp only [Worker.update_status, Worker.update_heartbeat]
          omega
      · rename_i hfull
        dsimp only
        refine ⟨?_, ?_⟩
        · simp only [List.length_append, List.length_cons, List.length_nil]
          omega
        · omega
  · unfold Worker.complete_task
    dsimp only
    split
    · rename_i hmem
      have hpos : 0 < w.current_tasks.length :=
        List.length_pos.mpr (List.ne_nil_of_mem hmem)
      have herase : (w.current_tasks.erase task_id).length = w.current_tasks.length - 1 :=
        List.length_erase_of_mem hmem
      split
      · rename_i hflip
        refine ⟨?_, ?_⟩
        · simp only [Worker.update_status, Worker.update_heartbeat, herase]
          omega
        · simp only [Worker.update_status, Worker.update_heartbeat]
          omega
      · rename_i hflip
        dsimp only
        refine ⟨?_, ?_⟩
        · simp only [herase]
          omega
        · omega
    · exact ⟨hlen, hmax⟩

/-- Witness for C2 at a concrete worker. -/
theorem claim_C2_witness :
    let w : Worker := { id := "w1", name := "n", status := .online,
                        capabilities := ["basic-scraping"], current_load := 1,
                        max_load := 2, ip_address := "127.0.0.1",
                        last_heartbeat := 0, current_tasks := ["t0"] }
    ((w.assign_task "t1" 5).2.current_load =
        ((w.assign_task "t1" 5).2.current_tasks.length : Int) ∧
      (w.assign_task "t1" 5).2.current_load ≤ (w.assign_task "t1" 5).2.max_load) ∧
    ((w.complete_task "t1" 5).2.current_load =
        ((w.complete_task "t1" 5).2.current_tasks.length : Int) ∧
      (w.complete_task "t1" 5).2.current_load ≤ (w.complete_task "t1" 5).2.max_load) :=
  claim_C2 _ "t1" 5 (by decide) (by decide)

/-! ## Claim C8: assignment at capacity fails without state change -/
/-- Claim C8: for every worker whose current_load equals max_load,
assign_task returns false and leaves the worker state entirely unchanged;
the failure is a boolean result (assign_task is a total function, it never
raises). -/
theorem claim_C8 (w : Worker) (task_id : String) (now : Int)
    (h : w.current_load = w.max_load) :
    w.assign_task task_id now = (false, w) := by
  unfold Worker.assign_task
  simp [h]

/-- Witness for C8 at a concrete worker at capacity. -/
theorem claim_C8_witness :
    let w : Worker := { id := "w1", name := "n", status := .busy,
                        capabilities := ["basic-scraping"], current_load := 2,
                        max_load := 2, ip_address := "127.0.0.1",
                        last_heartbeat := 0, current_tasks := ["a", "b"] }
    w.assign_task "t9" 7 = (false, w) :=
  claim_C8 _ "t9" 7 (by decide)

theorem record_error_count (t : Task) (e : String) (now : Int) :
    (t.record_error e now).error_count = t.error_count + 1 := by
  unfold Task.record_error
  by_cases h : t.error_count + 1 ≥ t.max_retries
  · simp [h, Task.update_status]
  · simp [h]

theorem record_error_retries (t : Task) (e : String) (now : Int) :
    (t.record_error e now).max_retries = t.max_retries := by
  unfold Task.record_error
  by_cases h : t.error_count + 1 ≥ t.max_retries
  · simp [h, Task.update_status]
  · simp [h]

theorem record_error_status (t : Task) (e : String) (now : Int) :
    (t.record_error e now).status =
      if t.error_count + 1 ≥ t.max_retries then TaskStatus.failed else t.status := by
  unfold Task.record_error
  by_cases h : t.error_count + 1 ≥ t.max_retries
  · simp [h, Task.update_status]
  · simp [h]

theorem record_errors_count (t : Task) (errs : List (String × Int)) :
    (t.record_errors errs).error_count = t.error_count + errs.length := by
  induction errs generalizing t with
  | nil => simp [Task.record_errors]
  | cons p rest ih =>
    simp only [Task.record_errors]
    rw [ih, record_error_count]
    simp only [List.length_cons]
    push_cast
    ring

theorem record_errors_retries (t : Task) (errs : List (String × Int)) :
    (t.record_errors errs).max_retries = t.max_retries := by
  induction errs generalizing t with
  | nil => simp [Task.record_errors]
  | cons p rest ih =>
    simp only [Task.record_errors]
    rw [ih, record_error_retries]

theorem record_errors_status (t : Task) (errs : List (String × Int)) :
    (t.record_errors errs).status =
      if errs ≠ [] ∧ t.error_count + errs.length ≥ t.max_retries then
        TaskStatus.failed
      else t.status := by
  induction errs generalizing t with
  | nil => simp [Task.record_errors]
  | cons p rest ih =>
    simp only [Task.record_errors]
    rw [ih, record_error_count, record_error_retries, record_error_status]
    have hlen : (((p :: rest).length : Int)) = (rest.length : Int) + 1 := by
      simp
    by_cases hA : t.error_count + 1 + (rest.length : Int) ≥ t.max_retries
    · have hRHS : p :: rest ≠ [] ∧ t.error_count + ((p :: rest).length : Int) ≥ t.max_retries := by
        refine ⟨by simp, ?_⟩
        rw [hlen]
        omega
      rw [if_pos hRHS]
      by_cases hrest : rest = []
      · subst hrest
        have h1 : t.error_count + 1 ≥ t.max_retries := by
          simp at hA
          omega
        have h2 : ¬ (([] : List (String × Int)) ≠ [] ∧
            t.error_count + 1 + (([] : List (String × Int)).length : Int) ≥ t.max_retries) := by
          rintro ⟨h, -⟩
          exact h rfl
        rw [if_neg h2, if_pos h1]
      · have h3 : rest ≠ [] ∧ t.error_count + 1 + (rest.length : Int) ≥ t.max_retries :=
          ⟨hrest, hA⟩
        rw [if_pos h3]
    · have hlen0 : (0 : Int) ≤ (rest.length : Int) := by positivity
      have h1 : ¬ (t.error_count + 1 ≥ t.max_retries) := by omega
      have h2 : ¬ (rest ≠ [] ∧ t.error_count + 1 + (rest.length : Int) ≥ t.max_retries) := by
        rintro ⟨-, h⟩
        exact hA h
      have h3 : ¬ (p :: rest ≠ [] ∧ t.error_count + ((p :: rest).length : Int) ≥ t.max_retries) := by
        rintro ⟨-, h⟩
        apply hA
        rw [hlen] at h
        omega
      rw [if_neg h2, if_neg h3, if_neg h1]

/-- Claim C3: a task freshly created with max_retries = n (n at least 1),
subjected to any sequence of record_error calls: after fewer than n calls
the status is unchanged (still the initial PENDING), and after exactly the
n-th call the status is FAILED with error_count at least max_retries. -/
theorem claim_C3 (id url : String) (priority timeout_ms : Int)
    (data : Option (List (String × String))) (n : Int) (now0 : Int)
    (hn : 1 ≤ n) (errs : List (String × Int)) :
    ((errs.length : Int) < n →
      ((Task.mkNew id url priority timeout_ms data n now0).record_errors errs).status =
        (Task.mkNew id url priority timeout_ms data n now0).status) ∧
    ((errs.length : Int) = n →
      ((Task.mkNew id url priority timeout_ms data n now0).record_errors errs).status =
        TaskStatus.failed ∧
      ((Task.mkNew id url priority timeout_ms data n now0).record_errors errs).error_count ≥
        ((Task.mkNew id url priority timeout_ms data n now0).record_errors errs).max_retries) := by
  set t0 := Task.mkNew id url priority timeout_ms data n now0 with ht0
  have hst : t0.status = TaskStatus.pending := rfl
  have hec : t0.error_count = 0 := rfl
  have hmr : t0.max_retries = n := rfl
  constructor
  · intro hlt
    rw [record_errors_status, hec, hmr]
    have hcond : ¬ (errs ≠ [] ∧ (0 : Int) + (errs.length : Int) ≥ n) := by
      rintro ⟨-, h2⟩
      omega
    rw [if_neg hcond]
  · intro heq
    have hne : errs ≠ [] := by
      intro hnil
      rw [hnil] at heq
      simp at heq
      omega
    refine ⟨?_, ?_⟩
    · rw [record_errors_status, hec, hmr]
      exact if_pos ⟨hne, by omega⟩
    · rw [record_errors_count, record_errors_retries, hec, hmr]
      omega

/-- Witness for C3 at a concrete fresh task with max_retries = 2. -/
theorem claim_C3_witness :
    ((([("e1", 5)] : List (String × Int)).length : Int) < 2 →
        ((Task.mkNew "t" "http://x" 1 30000 none 2 0).record_errors [("e1", 5)]).status =
          (Task.mkNew "t" "http://x" 1 30000 none 2 0).status) ∧
    ((([("e1", 5)] : List (String × Int)).length : Int) = 2 →
      ((Task.mkNew "t" "http://x" 1 30000 none 2 0).record_errors [("e1", 5)]).status =
        TaskStatus.failed ∧
      ((Task.mkNew "t" "http://x" 1 30000 none 2 0).record_errors [("e1", 5)]).error_count ≥
        ((Task.mkNew "t" "http://x" 1 30000 none 2 0).record_errors [("e1", 5)]).max_retries) :=
  claim_C3 "t" "http://x" 1 30000 none 2 0 (by decide) [("e1", 5)]

/-! ## Claim C9: reset frame conditions -/
/-- Claim C9: reset changes only the status (to PENDING) and the updated_at
timestamp; id, url, priority, data, error_count and max_retries are
untouched. In particular a task whose error_count already reached
max_retries and is reset to PENDING keeps its error count, so its very next
record_error forces FAILED again. -/
theorem claim_C9 (t : Task) (now : Int) :
    (t.reset now).status = TaskStatus.pending ∧
    (t.reset now).updated_at = now ∧
    (t.reset now).id = t.id ∧
    (t.reset now).url = t.url ∧
    (t.reset now).priority = t.priority ∧
    (t.reset now).created_at = t.created_at ∧
    (t.reset now).timeout_ms = t.timeout_ms ∧
    (t.reset now).data = t.data ∧
    (t.reset now).error_count = t.error_count ∧
    (t.reset now).max_retries = t.max_retries ∧
    (t.error_count ≥ t.max_retries →
      ∀ (e : String) (now2 : Int),
        (((t.reset now).record_error e now2).status = TaskStatus.failed)) := by
  refine ⟨rfl, rfl, rfl, rfl, rfl, rfl, rfl, rfl, rfl, rfl, ?_⟩
  intro hge e now2
  rw [record_error_status]
  have : (t.reset now).error_count + 1 ≥ (t.reset now).max_retries := by
    have h1 : (t.reset now).error_count = t.error_count := rfl
    have h2 : (t.reset now).max_retries = t.max_retries := rfl
    omega
  simp [this]

theorem checkWorkerHeartbeat_offline (tmo now : Int) (w : Worker)
    (h : w.status = WorkerStatus.offline) :
    checkWorkerHeartbeat tmo now w = (w, false) := by
  unfold checkWorkerHeartbeat
  simp [h]

theorem runHeartbeatTicks_offline (tmo : Int) (ticks : List Int) (w : Worker)
    (h : w.status = WorkerStatus.offline) :
    runHeartbeatTicks tmo ticks w = (w, 0) := by
  induction ticks with
  | nil => rfl
  | cons n ns ih =>
    simp only [runHeartbeatTicks]
    rw [checkWorkerHeartbeat_offline tmo n w h]
    simp [ih]

/-- Claim C5: a monitor tick sets a worker OFFLINE exactly when the elapsed
time since last_heartbeat exceeds heartbeat_timeout_ms and the worker is not
already OFFLINE; the OFFLINE hook set fires exactly under the same
condition, and once it has fired, no subsequent sequence of ticks fires it
again or changes the worker while it stays OFFLINE. -/
theorem claim_C5 (tmo now : Int) (w : Worker) :
    ((checkWorkerHeartbeat tmo now w).2 = true ↔
      (now - w.last_heartbeat > tmo ∧ w.status ≠ WorkerStatus.offline)) ∧
    ((checkWorkerHeartbeat tmo now w).1.status = WorkerStatus.offline ↔
      ((now - w.last_heartbeat > tmo ∧ w.status ≠ WorkerStatus.offline) ∨
        w.status = WorkerStatus.offline)) ∧
    ((checkWorkerHeartbeat tmo now w).2 = true →
      ∀ (ticks : List Int),
        runHeartbeatTicks tmo ticks (checkWorkerHeartbeat tmo now w).1 =
          ((checkWorkerHeartbeat tmo now w).1, 0)) := by
  by_cases hoff : w.status = WorkerStatus.offline
  · rw [checkWorkerHeartbeat_offline tmo now w hoff]
    refine ⟨by simp [hoff], by simp [hoff], by simp⟩
  · by_cases hexp : now - w.last_heartbeat > tmo
    · have he : w.is_heartbeat_expired tmo now = true := by
        unfold Worker.is_heartbeat_expired
        exact decide_eq_true hexp
      have hfires : triggerWorkerHooksFires (w.update_status .offline now) w.status = true := by
        unfold triggerWorkerHooksFires Worker.update_status Worker.update_heartbeat
        refine decide_eq_true ?_
        exact fun h => hoff h.symm
      have h1 : checkWorkerHeartbeat tmo now w = (w.update_status .offline now, true) := by
        unfold checkWorkerHeartbeat
        rw [he, decide_eq_false hoff]
        simp [hfires]
      rw [h1]
      refine ⟨by simp [hexp, hoff], ?_, ?_⟩
      · simp only [Worker.update_status, Worker.update_heartbeat]
        simp [hexp, hoff]
      · intro _ ticks
        exact runHeartbeatTicks_offline tmo ticks _ rfl
    · have he : w.is_heartbeat_expired tmo now = false := by
        unfold Worker.is_heartbeat_expired
        exact decide_eq_false hexp
      have h1 : checkWorkerHeartbeat tmo now w = (w, false) := by
        unfold checkWorkerHeartbeat
        rw [he]
        simp
      rw [h1]
      refine ⟨by simp [hexp], by simp [hexp, hoff], by simp⟩

/-- Witness for C5: an expired ONLINE worker transitions and fires once. -/
theorem claim_C5_witness :
    let w : Worker := { id := "w1", name := "n", status := .online,
                        capabilities := ["basic-scraping"], current_load := 0,
                        max_load := 5, ip_address := "127.0.0.1",
                        last_heartbeat := 0, current_tasks := [] }
    ((checkWorkerHeartbeat 60000 70000 w).2 = true ↔
      ((70000 : Int) - w.last_heartbeat > 60000 ∧ w.status ≠ WorkerStatus.offline)) ∧
    ((checkWorkerHeartbeat 60000 70000 w).1.status = WorkerStatus.offline ↔
      (((70000 : Int) - w.last_heartbeat > 60000 ∧ w.status ≠ WorkerStatus.offline) ∨
        w.status = WorkerStatus.offline)) ∧
    ((checkWorkerHeartbeat 60000 70000 w).2 = true →
      ∀ (ticks : List Int),
        runHeartbeatTicks 60000 ticks (checkWorkerHeartbeat 60000 70000 w).1 =
          ((checkWorkerHeartbeat 60000 70000 w).1, 0)) :=
  claim_C5 60000 70000 _

/-- Witness for C9 at a concrete exhausted task. -/
theorem claim_C9_witness :
    let t : Task := { id := "t1", url := "u", priority := 1, status := .failed,
                      created_at := 0, updated_at := 3, timeout_ms := 30000,
                      data := [("last_error", "boom")], error_count := 3,
                      max_retries := 3 }
    (t.reset 10).status = TaskStatus.pending ∧
    (t.reset 10).updated_at = 10 ∧
    (t.reset 10).id = t.id ∧
    (t.reset 10).url = t.url ∧
    (t.reset 10).priority = t.priority ∧
    (t.reset 10).created_at = t.created_at ∧
    (t.reset 10).timeout_ms = t.timeout_ms ∧
    (t.reset 10).data = t.data ∧
    (t.reset 10).error_count = t.error_count ∧
    (t.reset 10).max_retries = t.max_retries ∧
    (t.error_count ≥ t.max_retries →
      ∀ (e : String) (now2 : Int),
        (((t.reset 10).record_error e now2).status = TaskStatus.failed)) :=
  claim_C9 _ 10

/-! ## Claim C1: serialization round trip -/
theorem taskStatus_roundtrip (s : TaskStatus) : TaskStatus.ofValue s.value = some s := by
  cases s <;> rfl

theorem workerStatus_roundtrip (s : WorkerStatus) : WorkerStatus.ofValue s.value = some s := by
  cases s <;> rfl

theorem strategy_roundtrip (s : DistributionStrategy) :
    DistributionStrategy.ofValue s.value = some s := by
  cases s <;> rfl

theorem task_dict_roundtrip (t : Task) : Task.from_dict t.to_dict = some t := by
  have hd : pyDictOr (some t.data) = t.data := by
    unfold pyDictOr
    by_cases h : t.data = []
    · simp [h]
    · simp [h]
  simp only [Task.from_dict, Task.to_dict, taskStatus_roundtrip, hd]

theorem worker_dict_roundtrip (w : Worker) (hcap : w.capabilities ≠ []) :
    Worker.from_dict w.to_dict = some w := by
  have hc : pyListOr (some w.capabilities) ["basic-scraping"] = w.capabilities := by
    unfold pyListOr
    simp [hcap]
  simp only [Worker.from_dict, Worker.to_dict, workerStatus_roundtrip, hc]

theorem result_dict_roundtrip (r : TaskResult) : TaskResult.from_dict r.to_dict = r := rfl

theorem regSet_of_not_mem (m : List (String × α)) (k : String) (v : α)
    (h : ∀ q ∈ m, q.1 ≠ k) : regSet m k v = m ++ [(k, v)] := by
  unfold regSet
  have hany : m.any (fun p => p.1 = k) = false := by
    rw [List.any_eq_false]
    intro p hp
    simpa using h p hp
  rw [hany]
  simp

/-- Folding Python-dict insertion of a coherently keyed, key-distinct value
list onto a registry disjoint from it appends the whole list. -/
theorem foldl_regSet_values (key : α → String) (m pre : List (String × α))
    (hco : ∀ p ∈ m, key p.2 = p.1)
    (hdisj : ∀ p ∈ m, ∀ q ∈ pre, q.1 ≠ p.1)
    (hnd : (m.map (fun p => p.1)).Nodup) :
    (m.map (fun p => p.2)).foldl (fun acc v => regSet acc (key v) v) pre = pre ++ m := by
  induction m generalizing pre with
  | nil => simp
  | cons p rest ih =>
    simp only [List.map_cons, List.foldl_cons]
    have hk : key p.2 = p.1 := hco p (List.mem_cons_self _ _)
    have hstep : regSet pre (key p.2) p.2 = pre ++ [(p.1, p.2)] := by
      rw [hk]
      exact regSet_of_not_mem pre p.1 p.2
        (fun q hq => hdisj p (List.mem_cons_self _ _) q hq)
    rw [hstep]
    have hnd1 : (rest.map (fun q => q.1)).Nodup := by
      simp only [List.map_cons, List.nodup_cons] at hnd
      exact hnd.2
    have hfresh : p.1 ∉ rest.map (fun q => q.1) := by
      simp only [List.map_cons, List.nodup_cons] at hnd
      exact hnd.1
    have ihres := ih (pre ++ [(p.1, p.2)])
      (fun r hr => hco r (List.mem_cons_of_mem _ hr))
      (by
        intro r hr q hq
        rcases List.mem_append.mp hq with hq1 | hq2
        · exact hdisj r (List.mem_cons_of_mem _ hr) q hq1
        · have hqp : q = (p.1, p.2) := by simpa using hq2
          subst hqp
          intro hcontra
          apply hfresh
          rw [hcontra]
          exact List.mem_map_of_mem (fun q => q.1) hr)
      hnd1
    rw [ihres]
    simp

theorem loadTasks_toDict (ts : List Task) (d : TaskDistributor) :
    loadTasks (ts.map Task.to_dict) d =
      some (ts.foldl (fun acc t => acc.add_task t) d) := by
  induction ts generalizing d with
  | nil => rfl
  | cons t rest ih =>
    simp only [List.map_cons, loadTasks, task_dict_roundtrip, List.foldl_cons]
    exact ih _

theorem loadWorkers_toDict (ws : List Worker) (d : TaskDistributor)
    (hcap : ∀ w ∈ ws, w.capabilities ≠ []) :
    loadWorkers (ws.map Worker.to_dict) d =
      some (ws.foldl (fun acc w => acc.add_worker w) d) := by
  induction ws generalizing d with
  | nil => rfl
  | cons w rest ih =>
    simp only [List.map_cons, loadWorkers, List.foldl_cons]
    rw [worker_dict_roundtrip w (hcap w (List.mem_cons_self _ _))]
    exact ih _ (fun x hx => hcap x (List.mem_cons_of_mem _ hx))

theorem loadResults_toDict (rs : List TaskResult) (m : List (String × TaskResult)) :
    loadResults (rs.map TaskResult.to_dict) m =
      rs.foldl (fun acc r => regSet acc r.task_id r) m := by
  induction rs generalizing m with
  | nil => rfl
  | cons r rest ih =>
    simp only [List.map_cons, loadResults, result_dict_roundtrip]
    exact ih _

theorem foldl_add_task_eq (ts : List Task) (d : TaskDistributor) :
    ts.foldl (fun acc t => acc.add_task t) d =
      { d with tasks := ts.foldl (fun m t => regSet m t.id t) d.tasks } := by
  induction ts generalizing d with
  | nil => rfl
  | cons t rest ih =>
    simp only [List.foldl_cons]
    rw [ih]
    rfl

theorem foldl_add_worker_eq (ws : List Worker) (d : TaskDistributor) :
    ws.foldl (fun acc w => acc.add_worker w) d =
      { d with workers := ws.foldl (fun m w => regSet m w.id w) d.workers } := by
  induction ws generalizing d with
  | nil => rfl
  | cons w rest ih =>
    simp only [List.foldl_cons]
    rw [ih]
    rfl

/-- Claim C1: `from_dict ∘ to_dict` is the identity on task, worker (with
its always-established non-empty capability list) and result records, and
`save_state` followed by `load_state` on a fresh Process reproduces the
task, worker and result registries and the settings, given the registry
invariants every reachable Process state satisfies (keys are the record
ids and are unique; constructed workers always have a non-empty capability
list because of the `or` defaulting in the constructor). -/
theorem claim_C1 :
    (∀ t : Task, Task.from_dict t.to_dict = some t) ∧
    (∀ w : Worker, w.capabilities ≠ [] → Worker.from_dict w.to_dict = some w) ∧
    (∀ r : TaskResult, TaskResult.from_dict r.to_dict = r) ∧
    (∀ (s fresh : ProcState),
      (∀ p ∈ s.distributor.tasks, p.2.id = p.1) →
      (s.distributor.tasks.map (fun p => p.1)).Nodup →
      (∀ p ∈ s.distributor.workers, p.2.id = p.1) →
      (s.distributor.workers.map (fun p => p.1)).Nodup →
      (∀ p ∈ s.distributor.workers, p.2.capabilities ≠ []) →
      (∀ p ∈ s.task_results, p.2.task_id = p.1) →
      (s.task_results.map (fun p => p.1)).Nodup →
      ProcState.load_state fresh (ProcState.save_state s) = some s) := by
  refine ⟨task_dict_roundtrip, worker_dict_roundtrip, result_dict_roundtrip, ?_⟩
  intro s fresh hTco hTnd hWco hWnd hWcap hRco hRnd
  have hcap2 : ∀ w ∈ s.distributor.get_all_workers, w.capabilities ≠ [] := by
    intro w hw
    rcases List.mem_map.mp hw with ⟨p, hp, rfl⟩
    exact hWcap p hp
  have hT : (s.distributor.get_all_tasks).foldl (fun acc t => acc.add_task t)
      ({ tasks := [], workers := [],
         strategy := fresh.distributor.strategy } : TaskDistributor) =
      ({ tasks := s.distributor.tasks, workers := [],
         strategy := fresh.distributor.strategy } : TaskDistributor) := by
    rw [foldl_add_task_eq]
    unfold TaskDistributor.get_all_tasks
    rw [foldl_regSet_values Task.id s.distributor.tasks [] hTco
      (by intro p hp q hq; simp at hq) hTnd]
    simp
  have hW : (s.distributor.get_all_workers).foldl (fun acc w => acc.add_worker w)
      ({ tasks := s.distributor.tasks, workers := [],
         strategy := fresh.distributor.strategy } : TaskDistributor) =
      { tasks := s.distributor.tasks, workers := s.distributor.workers,
        strategy := fresh.distributor.strategy } := by
    rw [foldl_add_worker_eq]
    unfold TaskDistributor.get_all_workers
    rw [foldl_regSet_values Worker.id s.distributor.workers [] hWco
      (by intro p hp q hq; simp at hq) hWnd]
    simp
  have hR : (s.task_results.map (fun p => p.2)).foldl
      (fun acc r => regSet acc r.task_id r) ([] : List (String × TaskResult)) =
      s.task_results := by
    rw [foldl_regSet_values TaskResult.task_id s.task_results [] hRco
      (by intro p hp q hq; simp at hq) hRnd]
    simp
  show ProcState.load_state fresh (ProcState.save_state s) = some s
  unfold ProcState.load_state
  dsimp only
  rw [show (ProcState.save_state s).tasks =
      (s.distributor.get_all_tasks).map Task.to_dict from rfl]
  rw [loadTasks_toDict, hT]
  dsimp only
  rw [show (ProcState.save_state s).workers =
      (s.distributor.get_all_workers).map Worker.to_dict from rfl]
  rw [loadWorkers_toDict _ _ hcap2, hW]
  dsimp only
  rw [show (ProcState.save_state s).results =
      ((s.task_results.map (fun p => p.2)).map TaskResult.to_dict) from rfl]
  rw [loadResults_toDict, hR]
  rw [show (ProcState.save_state s).distribution_strategy =
      s.distributor.strategy.value from rfl]
  rw [strategy_roundtrip]
  rfl

/-- Witness for C1 at a concrete one-task, one-worker, one-result state. -/
theorem claim_C1_witness :
    let t : Task := { id := "t1", url := "http://x", priority := 1,
                      status := .assigned, created_at := 0, updated_at := 1,
                      timeout_ms := 30000, data := [("k", "v")],
                      error_count := 0, max_retries := 3 }
    let w : Worker := { id := "w1", name := "n", status := .online,
                        capabilities := ["basic-scraping"], current_load := 1,
                        max_load := 5, ip_address := "127.0.0.1",
                        last_heartbeat := 0, current_tasks := ["t1"] }
    let r : TaskResult := { task_id := "t1", worker_id := "w1", success := true,
                            execution_time_ms := 12, data := some [("u", "h")],
                            error := none, completed_at := 2 }
    let s : ProcState := { distributor := { tasks := [("t1", t)],
                                            workers := [("w1", w)],
                                            strategy := .least_busy },
                           heartbeat_timeout_ms := 60000,
                           task_check_interval_sec := 10,
                           task_results := [("t1", r)] }
    ProcState.load_state (ProcState.mkNew .round_robin 1 1) (ProcState.save_state s) =
      some s := by
  intro t w r s
  exact claim_C1.2.2.2 s (ProcState.mkNew .round_robin 1 1)
    (by decide) (by decide) (by decide) (by decide) (by decide) (by decide) (by decide)

/-! ## Claim C4: capability-match distribution -/
theorem leLoad_total : ∀ a b : Worker, (leLoad a b || leLoad b a) = true := by
  intro a b
  unfold leLoad
  rcases Int.le_total a.current_load b.current_load with h | h
  · rw [decide_eq_true h]
    simp
  · rw [decide_eq_true h]
    simp

theorem leLoad_trans : ∀ a b c : Worker,
    leLoad a b = true → leLoad b c = true → leLoad a c = true := by
  intro a b c hab hbc
  unfold leLoad at hab hbc ⊢
  exact decide_eq_true (le_trans (of_decide_eq_true hab) (of_decide_eq_true hbc))

/-- Every assignment event of the capability-match pass picks a member of
its eligible (capability-filtered) list, all of whose members pass the
capability filter, and the pick has minimal load among them. -/
theorem capMatchGo_events (now : Int) (tasks : List Task) (ws : List Worker) :
    ∀ ev ∈ (distributeCapabilityMatchGo now tasks ws).events,
      ev.worker ∈ ev.eligible ∧
      (∀ w ∈ ev.eligible, capFilterPred (requiredCapability ev.task) w = true) ∧
      (∀ w ∈ ev.eligible, ev.worker.current_load ≤ w.current_load) := by
  induction tasks generalizing ws with
  | nil =>
    intro ev hev
    simp [distributeCapabilityMatchGo] at hev
  | cons t ts ih =>
    intro ev hev
    cases ws with
    | nil => simp [distributeCapabilityMatchGo] at hev
    | cons w0 wrest =>
      simp only [distributeCapabilityMatchGo] at hev
      cases hL : pySort leLoad ((w0 :: wrest).filter (capFilterPred (requiredCapability t))) with
      | nil =>
        rw [hL] at hev
        simp only at hev
        exact ih _ ev hev
      | cons w rest =>
        rw [hL] at hev
        simp only at hev
        rcases List.mem_append.mp hev with hleft | hright
        · by_cases hok : ((w.assign_task t.id now).1 : Bool) = true
          · rw [if_pos hok] at hleft
            have hevfix : ev = ⟨t, w, (w0 :: wrest).filter (capFilterPred (requiredCapability t))⟩ := by
              simpa using hleft
            subst hevfix
            refine ⟨?_, ?_, ?_⟩
            · have hmem : w ∈ pySort leLoad ((w0 :: wrest).filter (capFilterPred (requiredCapability t))) := by
                rw [hL]
                exact List.mem_cons_self _ _
              exact (mem_pySort _ _ _).mp hmem
            · intro w2 hw2
              exact List.of_mem_filter hw2
            · intro w2 hw2
              have := pySort_head_min leLoad leLoad_total leLoad_trans
                ((w0 :: wrest).filter (capFilterPred (requiredCapability t))) w rest hL w2 hw2
              exact of_decide_eq_true this
          · rw [if_neg hok] at hleft
            simp at hleft
        · exact ih _ ev hright

/-- A task whose capability filter rules out every current worker is
skipped: left in place unchanged and producing no event and no count. -/
theorem capMatchGo_skip (now : Int) (t : Task) (ts : List Task) (ws : List Worker)
    (hws : ws ≠ [])
    (hfilter : ws.filter (capFilterPred (requiredCapability t)) = []) :
    distributeCapabilityMatchGo now (t :: ts) ws =
      { distributeCapabilityMatchGo now ts ws with
        tasks := t :: (distributeCapabilityMatchGo now ts ws).tasks } := by
  cases ws with
  | nil => exact absurd rfl hws
  | cons w0 wrest =>
    have h2 : pySort leLoad ((w0 :: wrest).filter (capFilterPred (requiredCapability t))) = [] := by
      rw [hfilter]
      rfl
    conv_lhs => rw [distributeCapabilityMatchGo]
    simp only [h2]

/-- Claim C4 (amended): in every capability-match pass, (1) a task that
declares a truthy required capability is only ever assigned to a worker
possessing it; (2) a task whose capability filter leaves no eligible worker
at its turn is skipped — left untouched (hence still PENDING), producing no
assignment; (3) every assignment picks a least-loaded worker among the
eligible set at that step — the same greedy criterion as least-busy —
though the realized tie-breaking differs from the least-busy pass, so the
produced assignments need not coincide (see the counterexample). -/
theorem claim_C4 (now : Int) (tasks : List Task) (ws : List Worker) :
    (∀ ev ∈ (distributeCapabilityMatchGo now tasks ws).events,
        pyStrTruthy (requiredCapability ev.task) = true →
        ev.worker.has_capability ((requiredCapability ev.task).getD "") = true) ∧
    (∀ (t : Task) (ts : List Task), ws ≠ [] →
        ws.filter (capFilterPred (requiredCapability t)) = [] →
        distributeCapabilityMatchGo now (t :: ts) ws =
          { distributeCapabilityMatchGo now ts ws with
            tasks := t :: (distributeCapabilityMatchGo now ts ws).tasks }) ∧
    (∀ ev ∈ (distributeCapabilityMatchGo now tasks ws).events,
        ev.worker ∈ ev.eligible ∧
        ∀ w ∈ ev.eligible, ev.worker.current_load ≤ w.current_load) := by
  refine ⟨?_, ?_, ?_⟩
  · intro ev hev htruthy
    rcases capMatchGo_events now tasks ws ev hev with ⟨hmem, hpred, -⟩
    have := hpred ev.worker hmem
    unfold capFilterPred at this
    rw [htruthy] at this
    simpa using this
  · intro t ts hws hfilter
    exact capMatchGo_skip now t ts ws hws hfilter
  · intro ev hev
    rcases capMatchGo_events now tasks ws ev hev with ⟨hmem, -, hmin⟩
    exact ⟨hmem, hmin⟩

/-- Counterexample to C4 as stated: a snapshot with no required capability
anywhere on which the capability-match pass and the least-busy pass produce
different assignments (they agree the first task goes to the idle worker,
then diverge on the tie). -/
theorem claim_C4_counterexample :
    let t1 : Task := { id := "t1", url := "u", priority := 1, status := .pending,
                       created_at := 0, updated_at := 0, timeout_ms := 30000,
                       data := [], error_count := 0, max_retries := 3 }
    let t2 : Task := { id := "t2", url := "u", priority := 1, status := .pending,
                       created_at := 0, updated_at := 0, timeout_ms := 30000,
                       data := [], error_count := 0, max_retries := 3 }
    let wB : Worker := { id := "B", name := "B", status := .online,
                         capabilities := ["basic-scraping"], current_load := 1,
                         max_load := 5, ip_address := "ip", last_heartbeat := 0,
                         current_tasks := ["t0"] }
    let wA : Worker := { id := "A", name := "A", status := .online,
                         capabilities := ["basic-scraping"], current_load := 0,
                         max_load := 5, ip_address := "ip", last_heartbeat := 0,
                         current_tasks := [] }
    (∀ t ∈ [t1, t2], pyStrTruthy (requiredCapability t) = false) ∧
    (distributeCapabilityMatchGo 9 [t1, t2] [wB, wA]).events.map
        (fun e => (e.task.id, e.worker.id)) = [("t1", "A"), ("t2", "B")] ∧
    (distributeLeastBusy 9 [t1, t2] [wB, wA]).events.map
        (fun e => (e.task.id, e.worker.id)) = [("t1", "A"), ("t2", "A")] ∧
    (distributeCapabilityMatchGo 9 [t1, t2] [wB, wA]).events.map
        (fun e => (e.task.id, e.worker.id)) ≠
      (distributeLeastBusy 9 [t1, t2] [wB, wA]).events.map
        (fun e => (e.task.id, e.worker.id)) := by
  intro t1 t2 wB wA
  refine ⟨by decide, by decide, by decide, by decide⟩

/-- Witness for C4 on a concrete one-task snapshot with a required
capability, plus a concrete skip instance. -/
theorem claim_C4_witness :
    let tReq : Task := { id := "t1", url := "u", priority := 1, status := .pending,
                         created_at := 0, updated_at := 0, timeout_ms := 30000,
                         data := [("required_capability", "api")],
                         error_count := 0, max_retries := 3 }
    let wApi : Worker := { id := "wA", name := "a", status := .online,
                           capabilities := ["api"], current_load := 0,
                           max_load := 5, ip_address := "ip",
                           last_heartbeat := 0, current_tasks := [] }
    let wNo : Worker := { id := "wB", name := "b", status := .online,
                          capabilities := ["basic-scraping"], current_load := 0,
                          max_load := 5, ip_address := "ip",
                          last_heartbeat := 0, current_tasks := [] }
    let ev : AssignEvent := { task := tReq, worker := wApi, eligible := [wApi] }
    (ev.worker.has_capability ((requiredCapability ev.task).getD "") = true) ∧
    (distributeCapabilityMatchGo 5 [tReq] [wNo] =
      { distributeCapabilityMatchGo 5 ([] : List Task) [wNo] with
        tasks := tReq :: (distributeCapabilityMatchGo 5 ([] : List Task) [wNo]).tasks }) ∧
    (ev.worker ∈ ev.eligible) ∧
    (ev.worker.current_load ≤ wApi.current_load) := by
  intro tReq wApi wNo ev
  refine ⟨?_, ?_, ?_, ?_⟩
  · exact (claim_C4 5 [tReq] [wApi]).1 ev (by decide) (by decide)
  · exact (claim_C4 5 [tReq] [wNo]).2.1 tReq [] (by decide) (by decide)
  · exact ((claim_C4 5 [tReq] [wApi]).2.2 ev (by decide)).1
  · exact ((claim_C4 5 [tReq] [wApi]).2.2 ev (by decide)).2 wApi (by decide)

/-! ## Claim C10: remove_worker frame and distribute non-interference -/
/-- In a registry with unique keys, equal keys mean equal entries. -/
theorem key_unique {α : Type} (m : List (String × α))
    (hnd : (m.map (fun p => p.1)).Nodup) :
    ∀ p ∈ m, ∀ q ∈ m, p.1 = q.1 → p = q := by
  induction m with
  | nil =>
    intro p hp
    simp at hp
  | cons x xs ih =>
    intro p hp q hq hk
    simp only [List.map_cons, List.nodup_cons] at hnd
    rcases List.mem_cons.mp hp with rfl | hp2
    · rcases List.mem_cons.mp hq with rfl | hq2
      · rfl
      · exfalso
        apply hnd.1
        rw [hk]
        exact List.mem_map_of_mem _ hq2
    · rcases List.mem_cons.mp hq with rfl | hq2
      · exfalso
        apply hnd.1
        rw [← hk]
        exact List.mem_map_of_mem _ hp2
      · exact ih hnd.2 p hp2 q hq2 hk

/-- A pending-snapshot member is PENDING and a registry value. -/
theorem mem_pending (d : TaskDistributor) (u : Task) (hu : u ∈ d.get_pending_tasks) :
    u.status = TaskStatus.pending ∧ ∃ q ∈ d.tasks, q.2 = u := by
  unfold TaskDistributor.get_pending_tasks TaskDistributor.get_all_tasks at hu
  rcases List.mem_filter.mp hu with ⟨hmem, hdec⟩
  refine ⟨of_decide_eq_true hdec, ?_⟩
  rcases List.mem_map.mp hmem with ⟨q, hq, rfl⟩
  exact ⟨q, hq, rfl⟩

/-- All tasks returned by the least-busy loop carry ids of input tasks, and
all events assign input tasks. -/
theorem leastBusyGo_from (now : Int) (tasks : List Task) (ws : List Worker) :
    (∀ u ∈ (distributeLeastBusyGo now tasks ws).tasks, ∃ t0 ∈ tasks, u.id = t0.id) ∧
    (∀ ev ∈ (distributeLeastBusyGo now tasks ws).events, ev.task ∈ tasks) := by
  induction tasks generalizing ws with
  | nil =>
    refine ⟨?_, ?_⟩ <;> intro x hx <;> simp [distributeLeastBusyGo] at hx
  | cons t ts ih =>
    cases ws with
    | nil =>
      refine ⟨?_, ?_⟩
      · intro u hu
        simp only [distributeLeastBusyGo] at hu
        exact ⟨u, hu, rfl⟩
      · intro ev hev
        simp [distributeLeastBusyGo] at hev
    | cons w wrest =>
      refine ⟨?_, ?_⟩
      · intro u hu
        simp only [distributeLeastBusyGo] at hu
        split at hu <;>
        · dsimp only at hu
          rcases List.mem_cons.mp hu with rfl | hu2
          · exact ⟨t, List.mem_cons_self _ _, by split <;> rfl⟩
          · rcases (ih _).1 u hu2 with ⟨t0, ht0, hid⟩
            exact ⟨t0, List.mem_cons_of_mem _ ht0, hid⟩
      · intro ev hev
        simp only [distributeLeastBusyGo] at hev
        split at hev <;>
        · dsimp only at hev
          rcases List.mem_append.mp hev with hl | hr
          · split at hl
            · have hevt : ev = ⟨t, w, w :: wrest⟩ := by simpa using hl
              subst hevt
              exact List.mem_cons_self _ _
            · simp at hl
          · exact List.mem_cons_of_mem _ ((ih _).2 ev hr)

/-- Same origin property for the round-robin loop. -/
theorem roundRobinGo_from (now : Int) (tasks : List Task) (ws : List Worker) (idx : Nat) :
    (∀ u ∈ (distributeRoundRobinGo now tasks ws idx).tasks, ∃ t0 ∈ tasks, u.id = t0.id) ∧
    (∀ ev ∈ (distributeRoundRobinGo now tasks ws idx).events, ev.task ∈ tasks) := by
  induction tasks generalizing ws idx with
  | nil =>
    refine ⟨?_, ?_⟩ <;> intro x hx <;> simp [distributeRoundRobinGo] at hx
  | cons t ts ih =>
    cases ws with
    | nil =>
      refine ⟨?_, ?_⟩
      · intro u hu
        simp only [distributeRoundRobinGo] at hu
        exact ⟨u, hu, rfl⟩
      · intro ev hev
        simp [distributeRoundRobinGo] at hev
    | cons w0 wrest =>
      refine ⟨?_, ?_⟩
      · intro u hu
        simp only [distributeRoundRobinGo] at hu
        split at hu
        · dsimp only at hu
          exact ⟨u, hu, rfl⟩
        · split at hu <;>
          · dsimp only at hu
            rcases List.mem_cons.mp hu with rfl | hu2
            · exact ⟨t, List.mem_cons_self _ _, by split <;> rfl⟩
            · rcases (ih _ _).1 u hu2 with ⟨t0, ht0, hid⟩
              exact ⟨t0, List.mem_cons_of_mem _ ht0, hid⟩
      · intro ev hev
        simp only [distributeRoundRobinGo] at hev
        split at hev
        · simp at hev
        · rename_i w hw
          split at hev <;>
          · dsimp only at hev
            rcases List.mem_append.mp hev with hl | hr
            · split at hl
              · have hevt : ev = ⟨t, w, w0 :: wrest⟩ := by simpa using hl
                subst hevt
                exact List.mem_cons_self _ _
              · simp at hl
            · exact List.mem_cons_of_mem _ ((ih _ _).2 ev hr)

/-- Same origin property for the capability-match loop. -/
theorem capMatchGo_from (now : Int) (tasks : List Task) (ws : List Worker) :
    (∀ u ∈ (distributeCapabilityMatchGo now tasks ws).tasks, ∃ t0 ∈ tasks, u.id = t0.id) ∧
    (∀ ev ∈ (distributeCapabilityMatchGo now tasks ws).events, ev.task ∈ tasks) := by
  induction tasks generalizing ws with
  | nil =>
    refine ⟨?_, ?_⟩ <;> intro x hx <;> simp [distributeCapabilityMatchGo] at hx
  | cons t ts ih =>
    cases ws with
    | nil =>
      refine ⟨?_, ?_⟩
      · intro u hu
        simp only [distributeCapabilityMatchGo] at hu
        exact ⟨u, hu, rfl⟩
      · intro ev hev
        simp [distributeCapabilityMatchGo] at hev
    | cons w0 wrest =>
      refine ⟨?_, ?_⟩
      · intro u hu
        simp only [distributeCapabilityMatchGo] at hu
        cases hL : pySort leLoad ((w0 :: wrest).filter (capFilterPred (requiredCapability t))) with
        | nil =>
          rw [hL] at hu
          simp only at hu
          rcases List.mem_cons.mp hu with rfl | hu2
          · exact ⟨_, List.mem_cons_self _ _, rfl⟩
          · rcases (ih _).1 u hu2 with ⟨t0, ht0, hid⟩
            exact ⟨t0, List.mem_cons_of_mem _ ht0, hid⟩
        | cons w rest =>
          rw [hL] at hu
          simp only at hu
          rcases List.mem_cons.mp hu with rfl | hu2
          · exact ⟨t, List.mem_cons_self _ _, by split <;> rfl⟩
          · rcases (ih _).1 u hu2 with ⟨t0, ht0, hid⟩
            exact ⟨t0, List.mem_cons_of_mem _ ht0, hid⟩
      · intro ev hev
        simp only [distributeCapabilityMatchGo] at hev
        cases hL : pySort leLoad ((w0 :: wrest).filter (capFilterPred (requiredCapability t))) with
        | nil =>
          rw [hL] at hev
          simp only at hev
          exact List.mem_cons_of_mem _ ((ih _).2 ev hev)
        | cons w rest =>
          rw [hL] at hev
          simp only at hev
          rcases List.mem_append.mp hev with hl | hr
          · split at hl
            · have hevt : ev = ⟨t, w, (w0 :: wrest).filter
                  (capFilterPred (requiredCapability t))⟩ := by simpa using hl
              subst hevt
              exact List.mem_cons_self _ _
            · simp at hl
          · exact List.mem_cons_of_mem _ ((ih _).2 ev hr)

/-- The origin property for every strategy dispatched by `distribute`. -/
theorem runStrategy_from (st : DistributionStrategy) (now : Int)
    (tasks : List Task) (ws : List Worker) :
    (∀ u ∈ (runStrategy st now tasks ws).tasks, ∃ t0 ∈ tasks, u.id = t0.id) ∧
    (∀ ev ∈ (runStrategy st now tasks ws).events, ev.task ∈ tasks) := by
  cases st with
  | round_robin =>
    unfold runStrategy distributeRoundRobin
    exact roundRobinGo_from now tasks ws 0
  | least_busy =>
    unfold runStrategy distributeLeastBusy
    exact leastBusyGo_from now tasks (pySort leLoad ws)
  | priority_based =>
    unfold runStrategy distributePriorityBased
    refine ⟨?_, ?_⟩
    · intro u hu
      rcases (leastBusyGo_from now (pySort lePriorityDesc tasks) (pySort leLoad ws)).1 u hu
        with ⟨t0, ht0, hid⟩
      exact ⟨t0, (mem_pySort _ _ _).mp ht0, hid⟩
    · intro ev hev
      exact (mem_pySort _ _ _).mp
        ((leastBusyGo_from now (pySort lePriorityDesc tasks) (pySort leLoad ws)).2 ev hev)
  | capability_match =>
    unfold runStrategy
    exact capMatchGo_from now tasks ws

/-- Claim C10: remove_worker deletes only that worker entry (tasks registry
and strategy untouched, other worker entries kept); an ASSIGNED task is
never returned by get_pending_tasks; and an ASSIGNED task entry is left
exactly in place by any later distribute() call under any strategy — it is
never re-assigned (no assignment event carries its id). -/
theorem claim_C10 (d : TaskDistributor) (worker_id : String) (now : Int) :
    ((d.remove_worker worker_id).2.tasks = d.tasks ∧
     (d.remove_worker worker_id).2.strategy = d.strategy ∧
     (∀ p ∈ d.workers, p.1 ≠ worker_id → p ∈ (d.remove_worker worker_id).2.workers) ∧
     (∀ p ∈ (d.remove_worker worker_id).2.workers, p ∈ d.workers ∧ p.1 ≠ worker_id)) ∧
    (∀ t : Task, t.status = TaskStatus.assigned → t ∉ d.get_pending_tasks) ∧
    (∀ (i : String) (t : Task),
      (∀ p ∈ d.tasks, p.2.id = p.1) →
      (d.tasks.map (fun p => p.1)).Nodup →
      (i, t) ∈ d.tasks → t.status = TaskStatus.assigned →
      (i, t) ∈ (d.distribute now).2.1.tasks ∧
      (∀ ev ∈ (d.distribute now).2.2, ev.task.id ≠ i)) := by
  refine ⟨?_, ?_, ?_⟩
  · unfold TaskDistributor.remove_worker
    split
    · rename_i hfound
      refine ⟨rfl, rfl, ?_, ?_⟩
      · intro p hp hne
        dsimp only
        exact List.mem_filter.mpr ⟨hp, by simpa using hne⟩
      · intro p hp
        dsimp only at hp
        rcases List.mem_filter.mp hp with ⟨hmem, hdec⟩
        exact ⟨hmem, by simpa using hdec⟩
    · rename_i hnotfound
      have hnone : ∀ p ∈ d.workers, p.1 ≠ worker_id := by
        intro p hp hcontra
        apply hnotfound
        rw [List.any_eq_true]
        exact ⟨p, hp, by simpa using hcontra⟩
      refine ⟨rfl, rfl, ?_, ?_⟩
      · intro p hp hne
        exact hp
      · intro p hp
        exact ⟨hp, hnone p hp⟩
  · intro t hst hmem
    have := (mem_pending d t hmem).1
    rw [hst] at this
    exact absurd this (by decide)
  · intro i t hco hnd hmem hst
    have hkey : ∀ u : Task, u ∈ d.get_pending_tasks → u.id = i → False := by
      intro u hu hui
      rcases mem_pending d u hu with ⟨hupend, q, hq, hq2⟩
      have hq1 : q.1 = i := by
        rw [← hco q hq, hq2, hui]
      have hqe : q = (i, t) := key_unique d.tasks hnd q hq (i, t) hmem hq1
      have hut : u = t := by
        rw [← hq2, hqe]
      rw [hut, hst] at hupend
      exact absurd hupend (by decide)
    unfold TaskDistributor.distribute
    by_cases hpend : d.get_pending_tasks = []
    · rw [if_pos hpend]
      exact ⟨hmem, by intro ev hev; simp at hev⟩
    · rw [if_neg hpend]
      by_cases havail : d.get_available_workers = []
      · rw [if_pos havail]
        exact ⟨hmem, by intro ev hev; simp at hev⟩
      · rw [if_neg havail]
        dsimp only
        refine ⟨?_, ?_⟩
        · have hfind : (runStrategy d.strategy now d.get_pending_tasks
              d.get_available_workers).tasks.find? (fun u => u.id = i) = none := by
            rw [List.find?_eq_none]
            intro u hu
            intro hdec
            rcases (runStrategy_from d.strategy now d.get_pending_tasks
              d.get_available_workers).1 u hu with ⟨t0, ht0, hid⟩
            have hui : u.id = i := of_decide_eq_true hdec
            exact hkey t0 ht0 (by rw [← hid, hui])
          have hmm := List.mem_map_of_mem (fun p : String × Task =>
            match (runStrategy d.strategy now d.get_pending_tasks
                d.get_available_workers).tasks.find? (fun u => u.id = p.1) with
            | some u => (p.1, u)
            | none => p) hmem
          have hentry : (fun p : String × Task =>
            match (runStrategy d.strategy now d.get_pending_tasks
                d.get_available_workers).tasks.find? (fun u => u.id = p.1) with
            | some u => (p.1, u)
            | none => p) (i, t) = (i, t) := by
            show (match (runStrategy d.strategy now d.get_pending_tasks
                d.get_available_workers).tasks.find? (fun u => u.id = i) with
              | some u => (i, u)
              | none => (i, t)) = (i, t)
            rw [hfind]
          rw [hentry] at hmm
          exact hmm
        · intro ev hev hcontra
          have := (runStrategy_from d.strategy now d.get_pending_tasks
            d.get_available_workers).2 ev hev
          exact hkey ev.task this hcontra

/-- Witness for C10 at a concrete distributor holding an ASSIGNED task. -/
theorem claim_C10_witness :
    let tAsg : Task := { id := "t1", url := "u", priority := 1, status := .assigned,
                         created_at := 0, updated_at := 0, timeout_ms := 30000,
                         data := [], error_count := 0, max_retries := 3 }
    let w : Worker := { id := "w1", name := "n", status := .online,
                        capabilities := ["basic-scraping"], current_load := 0,
                        max_load := 5, ip_address := "ip", last_heartbeat := 0,
                        current_tasks := [] }
    let d : TaskDistributor := { tasks := [("t1", tAsg)], workers := [("w1", w)],
                                 strategy := .least_busy }
    (d.remove_worker "w1").2.tasks = d.tasks ∧
    (tAsg ∉ d.get_pending_tasks) ∧
    ("t1", tAsg) ∈ (d.distribute 7).2.1.tasks ∧
    (∀ ev ∈ (d.distribute 7).2.2, ev.task.id ≠ "t1") := by
  intro tAsg w d
  refine ⟨(claim_C10 d "w1" 7).1.1, (claim_C10 d "w1" 7).2.1 tAsg (by decide), ?_, ?_⟩
  · exact ((claim_C10 d "w1" 7).2.2 "t1" tAsg (by decide) (by decide) (by decide) (by decide)).1
  · exact ((claim_C10 d "w1" 7).2.2 "t1" tAsg (by decide) (by decide) (by decide) (by decide)).2

theorem closeSession_spec (st : CMState) (h : SessionInv st) :
    SessionInv (closeSession st) ∧ (closeSession st).active_session_id = none := by
  unfold SessionInv at h
  cases hact : st.active_session_id with
  | none =>
    have hcl : closeSession st = st := by
      unfold closeSession
      rw [hact]
    rw [hcl]
    unfold SessionInv
    rw [hact] at h ⊢
    exact ⟨h, rfl⟩
  | some sid =>
    have hcl : closeSession st =
        { st with ended := st.ended ++ [sid], active_session_id := none } := by
      unfold closeSession
      rw [hact]
    rw [hcl]
    refine ⟨?_, rfl⟩
    unfold SessionInv
    dsimp only
    rw [hact] at h
    simp only [Option.toList_some] at h
    simp only [Option.toList_none, List.append_nil]
    exact h

theorem startSession_inv (st : CMState) (h : SessionInv st)
    (hact : st.active_session_id = none) : SessionInv (startSession st) := by
  unfold SessionInv at h ⊢
  unfold startSession
  dsimp only
  rw [hact] at h
  simp only [Option.toList_none, List.append_nil] at h
  simp [h]

theorem rotateSession_inv (st : CMState) (h : SessionInv st) :
    SessionInv (rotateSession st) := by
  unfold SessionInv at h
  cases hact : st.active_session_id with
  | none =>
    have : rotateSession st = st := by
      unfold rotateSession
      rw [hact]
    rw [this]
    exact h
  | some sid =>
    have hrot : rotateSession st =
        { startSession { st with ended := st.ended ++ [sid] } with
          urls_in_session := 0 } := by
      unfold rotateSession
      rw [hact]
    rw [hrot]
    unfold SessionInv startSession
    dsimp only
    rw [hact] at h
    simp only [Option.toList_some] at h
    simp [h]

theorem ensure_inv (st : CMState) (h : SessionInv st) :
    SessionInv (match st.active_session_id with
                | none => { (startSession st) with urls_in_session := 0 }
                | some _ => st) := by
  cases hact : st.active_session_id with
  | none => exact startSession_inv st h hact
  | some s => exact h

theorem crawlStep_inv (cfg : CMConfig) (f : Nat → CrawlCall) (st : CMState)
    (url : String) (h : SessionInv st) :
    SessionInv (crawlStep cfg f st url).2 := by
  unfold crawlStep
  dsimp only
  have h1 : SessionInv (match st.active_session_id with
      | none => { (startSession st) with urls_in_session := 0 }
      | some _ => st) := ensure_inv st h
  cases hcall : f (match st.active_session_id with
      | none => { (startSession st) with urls_in_session := 0 }
      | some _ => st).callIdx with
  | bodyRaises => exact h1
  | scrapeRaises => exact h1
  | returns succ links =>
    dsimp only
    split
    · exact rotateSession_inv _ h1
    · exact h1

theorem depthLoop_close (cfg : CMConfig) (f : Nat → CrawlCall) (max_depth : Nat) :
    ∀ (fuel : Nat) (st : CMState), SessionInv st →
    ∀ (ok : Bool) (stF : CMState),
      depthLoop cfg f max_depth fuel st = some (ok, stF) →
      stF.active_session_id = none ∧ stF.ended = stF.started := by
  intro fuel
  induction fuel with
  | zero =>
    intro st h ok stF hrun
    simp [depthLoop] at hrun
  | succ fuel ih =>
    intro st h ok stF hrun
    simp only [depthLoop] at hrun
    cases hq : st.queue with
    | nil =>
      rw [hq] at hrun
      simp only [Option.some.injEq, Prod.mk.injEq] at hrun
      rcases hrun with ⟨-, hst⟩
      subst hst
      rcases closeSession_spec st h with ⟨hinv, hnone⟩
      refine ⟨hnone, ?_⟩
      unfold SessionInv at hinv
      rw [hnone] at hinv
      simp only [Option.toList_none, List.append_nil] at hinv
      exact hinv.symm
    | cons p rest =>
      obtain ⟨url, depth⟩ := p
      rw [hq] at hrun
      dsimp only at hrun
      by_cases hmem : url ∈ st.crawled
      · rw [if_pos hmem] at hrun
        refine ih _ ?_ ok stF hrun
        exact h
      · rw [if_neg hmem] at hrun
        have hinv1 : SessionInv ({ st with queue := rest } : CMState) := h
        cases hcs : crawlStep cfg f { st with queue := rest } url with
        | mk r st2 =>
          have hinv2 : SessionInv st2 := by
            have := crawlStep_inv cfg f { st with queue := rest } url hinv1
            rw [hcs] at this
            exact this
          rw [hcs] at hrun
          cases r with
          | raised =>
            simp only [Option.some.injEq, Prod.mk.injEq] at hrun
            rcases hrun with ⟨-, hst⟩
            subst hst
            rcases closeSession_spec st2 hinv2 with ⟨hinv, hnone⟩
            refine ⟨hnone, ?_⟩
            unfold SessionInv at hinv
            rw [hnone] at hinv
            simp only [Option.toList_none, List.append_nil] at hinv
            exact hinv.symm
          | res succ ltf =>
            dsimp only at hrun
            cases succ with
            | true =>
              rw [if_pos rfl] at hrun
              refine ih _ ?_ ok stF hrun
              exact hinv2
            | false =>
              rw [if_neg (by simp)] at hrun
              refine ih _ ?_ ok stF hrun
              exact hinv2

/-- Claim C7: every terminating run of crawl_with_depth — whether it exits
normally with the queue emptied (success flag true) or through the
exceptional path (success flag false) — ends with the active session id
cleared and with the ended-session log equal to the started-session log:
each session opened during the traversal (the initial one and any rotation
replacements) is closed exactly once, in order. -/
theorem claim_C7 (cfg : CMConfig) (f : Nat → CrawlCall) (max_depth fuel : Nat)
    (start_url : String) (visited0 : List String) (urls0 : Nat)
    (session0 : Option Nat) (nextId0 : Nat) (ok : Bool) (stF : CMState)
    (h : crawl_with_depth cfg f max_depth fuel start_url visited0 urls0 session0 nextId0 =
      some (ok, stF)) :
    stF.active_session_id = none ∧ stF.ended = stF.started := by
  unfold crawl_with_depth at h
  refine depthLoop_close cfg f max_depth fuel _ ?_ ok stF h
  unfold SessionInv startSession
  simp

/-- Witness for C7: a concrete normal run and a concrete exceptional run,
both ending with the session closed exactly once. -/
theorem claim_C7_witness :
    let stN : CMState := { queue := [], crawled := ["https://a.test/"],
                           successful := ["https://a.test/"], failed := [],
                           visited := ["https://a.test/"],
                           active_session_id := none, urls_in_session := 1,
                           nextId := 2, started := [1], ended := [1],
                           callIdx := 1 }
    let stE : CMState := { queue := [], crawled := [], successful := [],
                           failed := [], visited := [],
                           active_session_id := none, urls_in_session := 0,
                           nextId := 2, started := [1], ended := [1],
                           callIdx := 1 }
    (stN.active_session_id = none ∧ stN.ended = stN.started) ∧
    (stE.active_session_id = none ∧ stE.ended = stE.started) := by
  intro stN stE
  refine ⟨?_, ?_⟩
  · exact claim_C7 ⟨100, true, true⟩ (fun _ => CrawlCall.returns true []) 1 3
      "https://a.test/" [] 0 none 1 true stN (by decide)
  · exact claim_C7 ⟨100, true, true⟩ (fun _ => CrawlCall.bodyRaises) 1 3
      "https://a.test/" [] 0 none 1 false stE (by decide)

/-! ## Claim C6: breadth-first traversal structure of crawl_with_depth -/
/-- Claim C6: (a) crawl_with_depth seeds a FIFO queue with (start_url, 0)
and drives the loop from it; (b) a dequeued url already in the crawled set
is skipped — the step only pops it; (c) for a newly dequeued url whose
crawl returns, on success the filtered outbound links are appended to the
back of the queue at depth + 1 exactly when depth < max_depth (nothing is
enqueued at depth = max_depth), and on failure nothing is enqueued. -/
theorem claim_C6 (cfg : CMConfig) (f : Nat → CrawlCall) (max_depth fuel : Nat)
    (url : String) (depth : Nat) (rest : List (String × Nat)) (st : CMState)
    (hq : st.queue = (url, depth) :: rest) :
    (∀ (start_url : String) (visited0 : List String) (urls0 : Nat)
        (session0 : Option Nat) (nextId0 : Nat),
       crawl_with_depth cfg f max_depth fuel start_url visited0 urls0 session0 nextId0 =
         depthLoop cfg f max_depth fuel
           { queue := [(start_url, 0)], crawled := [], successful := [],
             failed := [], visited := visited0, active_session_id := some nextId0,
             urls_in_session := 0, nextId := nextId0 + 1, started := [nextId0],
             ended := [], callIdx := 0 }) ∧
    (url ∈ st.crawled →
       depthLoop cfg f max_depth (fuel + 1) st =
         depthLoop cfg f max_depth fuel { st with queue := rest }) ∧
    (url ∉ st.crawled →
       ∀ (succ : Bool) (ltf : List String) (st2 : CMState),
         crawlStep cfg f { st with queue := rest } url = (CrawlRes.res succ ltf, st2) →
         ((succ = true → depth < max_depth →
             depthLoop cfg f max_depth (fuel + 1) st =
               depthLoop cfg f max_depth fuel
                 { st2 with crawled := setAdd st2.crawled url,
                            successful := setAdd st2.successful url,
                            queue := st2.queue ++ ltf.filterMap (fun link_url =>
                              if !(link_url = "") && !(link_url ∈ setAdd st2.crawled url) then
                                some (link_url, depth + 1)
                              else none) }) ∧
          (succ = true → ¬ depth < max_depth →
             depthLoop cfg f max_depth (fuel + 1) st =
               depthLoop cfg f max_depth fuel
                 { st2 with crawled := setAdd st2.crawled url,
                            successful := setAdd st2.successful url }) ∧
          (succ = false →
             depthLoop cfg f max_depth (fuel + 1) st =
               depthLoop cfg f max_depth fuel
                 { st2 with crawled := setAdd st2.crawled url,
                            failed := setAdd st2.failed url }))) := by
  refine ⟨?_, ?_, ?_⟩
  · intro start_url visited0 urls0 session0 nextId0
    rfl
  · intro hmem
    simp only [depthLoop, hq]
    rw [if_pos hmem]
  · intro hnot succ ltf st2 hcs
    simp only [depthLoop, hq]
    rw [if_neg hnot]
    rw [hcs]
    dsimp only
    refine ⟨?_, ?_, ?_⟩
    · intro h1 h2
      subst h1
      rw [if_pos rfl, if_pos h2]
    · intro h1 h2
      subst h1
      rw [if_pos rfl, if_neg h2]
      simp only [List.append_nil]
    · intro h1
      subst h1
      rw [if_neg (by simp)]

/-- Witness for C6: a concrete skip step, and a concrete successful step at
depth 0 below max_depth 1 whose single same-domain link is enqueued at
depth 1. -/
theorem claim_C6_witness :
    let cfg : CMConfig := ⟨100, true, true⟩
    let fW : Nat → CrawlCall := fun _ => CrawlCall.returns true [some "https://a.test/p2"]
    let stSkip : CMState := { queue := [("https://a.test/", 0)],
                              crawled := ["https://a.test/"], successful := [],
                              failed := [], visited := [],
                              active_session_id := some 1,
                              urls_in_session := 0, nextId := 2,
                              started := [1], ended := [], callIdx := 0 }
    let stPre : CMState := { queue := [("https://a.test/", 0)], crawled := [],
                             successful := [], failed := [], visited := [],
                             active_session_id := some 1, urls_in_session := 0,
                             nextId := 2, started := [1], ended := [],
                             callIdx := 0 }
    let st2W : CMState := { queue := [], crawled := [], successful := [],
                            failed := [], visited := ["https://a.test/"],
                            active_session_id := some 1, urls_in_session := 1,
                            nextId := 2, started := [1], ended := [],
                            callIdx := 1 }
    (depthLoop cfg fW 1 6 stSkip = depthLoop cfg fW 1 5 { stSkip with queue := [] }) ∧
    (depthLoop cfg fW 1 6 stPre =
       depthLoop cfg fW 1 5
         { st2W with crawled := setAdd st2W.crawled "https://a.test/",
                     successful := setAdd st2W.successful "https://a.test/",
                     queue := st2W.queue ++
                       (["https://a.test/p2"] : List String).filterMap (fun link_url =>
                         if !(link_url = "") &&
                             !(link_url ∈ setAdd st2W.crawled "https://a.test/") then
                           some (link_url, 0 + 1)
                         else none) }) := by
  intro cfg fW stSkip stPre st2W
  refine ⟨?_, ?_⟩
  · exact (claim_C6 cfg fW 1 5 "https://a.test/" 0 [] stSkip rfl).2.1 (by decide)
  · exact ((claim_C6 cfg fW 1 5 "https://a.test/" 0 [] stPre rfl).2.2 (by decide)
      true ["https://a.test/p2"] st2W (by decide)).1 rfl (by decide)

end RS
